import Mathlib

/-
  Verification of the brain_trials_finder trial retrieval and scoring pipeline.

  The Python sources (ctgov_client.py, uk_sources.py) are shallowly embedded:
  JSON/Python values are modelled by `JVal`, Python exceptions by `Except PyErr`,
  and each source function is translated statement by statement.  The HTTP layer
  is modelled by an oracle function from request parameters to a network result.
-/

set_option linter.unusedVariables false

/-- A Python/JSON value as it appears in registry records and intake dicts.
    Dicts are insertion-ordered association lists, as in Python 3.7+. -/
inductive JVal where
  | null
  | bool (b : Bool)
  | int (n : Int)
  | str (s : String)
  | list (xs : List JVal)
  | dict (xs : List (String × JVal))

/-- The Python exceptions the embedded code can raise. -/
inductive PyErr where
  | attributeError
  | typeError
  | keyError
  | httpError
  | timeout
  | jsonDecodeError
deriving Repr, DecidableEq

/-- Python truthiness of a value (`bool(v)`). -/
def truthy : JVal → Bool
  | .null => false
  | .bool b => b
  | .int n => n != 0
  | .str s => s != ""
  | .list xs => !xs.isEmpty
  | .dict xs => !xs.isEmpty

/-- Python `a or b` (returns `a` when truthy, else `b`). -/
def pyOr (a b : JVal) : JVal := if truthy a then a else b

/-- First value bound to `key` in an association list (Python dicts have unique
    keys, so first-match lookup models `dict.__getitem__`). -/
def findVal : List (String × JVal) → String → Option JVal
  | [], _ => none
  | (k, v) :: rest, key => if k = key then some v else findVal rest key

/-- `xs.get(key, d)` on a dict body: the stored value when the key is present
    (even when that value is None), else the default. -/
def lookupD (xs : List (String × JVal)) (key : String) (d : JVal) : JVal :=
  match findVal xs key with
  | some v => v
  | none => d

/-- `xs.get(key)` on a dict body: defaults to None. -/
def lookupJ (xs : List (String × JVal)) (key : String) : JVal :=
  lookupD xs key .null

/-- Python `v.get(key, d)`: AttributeError unless `v` is a dict. -/
def pyGetD (v : JVal) (key : String) (d : JVal) : Except PyErr JVal :=
  match v with
  | .dict xs => .ok (lookupD xs key d)
  | _ => .error .attributeError

/-- Python `v.get(key)`: AttributeError unless `v` is a dict; defaults to None. -/
def pyGet (v : JVal) (key : String) : Except PyErr JVal :=
  pyGetD v key .null

/-- Dict assignment `d[key] = v`: replaces in place when the key exists,
    otherwise appends (Python dicts keep insertion order). -/
def setAssoc (xs : List (String × JVal)) (key : String) (v : JVal) : List (String × JVal) :=
  match xs with
  | [] => [(key, v)]
  | (k2, v2) :: rest =>
    if k2 = key then (key, v) :: rest else (k2, v2) :: setAssoc rest key v

/-- Python `d[key] = v` on a value: TypeError unless it is a dict. -/
def pySetItem (v : JVal) (key : String) (x : JVal) : Except PyErr JVal :=
  match v with
  | .dict xs => .ok (.dict (setAssoc xs key x))
  | _ => .error .typeError

/-- Iterating a Python value (`for x in v`): lists yield elements, strings yield
    one-character strings, dicts yield their keys; other values raise TypeError. -/
def pyIter : JVal → Except PyErr (List JVal)
  | .list xs => .ok xs
  | .str s => .ok (s.data.map fun c => .str (String.mk [c]))
  | .dict xs => .ok (xs.map fun p => .str p.1)
  | _ => .error .typeError

mutual
/-- Structural equality test on values (used for dict keys and `==` on
    same-typed values). -/
def beqJ : JVal → JVal → Bool
  | .null, .null => true
  | .bool a, .bool b => a = b
  | .int a, .int b => a = b
  | .str a, .str b => a = b
  | .list a, .list b => beqListJ a b
  | .dict a, .dict b => beqDictJ a b
  | _, _ => false

def beqListJ : List JVal → List JVal → Bool
  | [], [] => true
  | a :: as2, b :: bs2 => beqJ a b && beqListJ as2 bs2
  | _, _ => false

def beqDictJ : List (String × JVal) → List (String × JVal) → Bool
  | [], [] => true
  | (k1, a) :: as2, (k2, b) :: bs2 => k1 = k2 && beqJ a b && beqDictJ as2 bs2
  | _, _ => false
end

/-- Python `v is None`. -/
def isNull : JVal → Bool
  | .null => true
  | _ => false

/-- A bool or int viewed as a Python number (bool is a subclass of int). -/
def jNum : JVal → Option Int
  | .int n => some n
  | .bool b => some (if b then 1 else 0)
  | _ => none

/-- Python `a == b` for the value types in play: numeric values compare by
    value (True == 1), other types structurally, mixed types are unequal. -/
def pyEq (a b : JVal) : Bool :=
  match jNum a, jNum b with
  | some m, some n => m = n
  | _, _ => beqJ a b

/-- Python `v < n` against an int: bools coerce, everything else raises. -/
def pyLtI (v : JVal) (n : Int) : Except PyErr Bool :=
  match jNum v with
  | some m => .ok (m < n)
  | none => .error .typeError

/-- Python `v > n` against an int. -/
def pyGtI (v : JVal) (n : Int) : Except PyErr Bool :=
  match jNum v with
  | some m => .ok (m > n)
  | none => .error .typeError

/-- Python unary minus, as used by the sort keys `-x.get("score", 0)`. -/
def pyNeg (v : JVal) : Except PyErr Int :=
  match jNum v with
  | some m => .ok (-m)
  | none => .error .typeError

/-- The ASCII whitespace characters that Python `str.strip()` removes
    (the records in play are ASCII). -/
def isPySpace (c : Char) : Bool :=
  c = ' ' || c = '\t' || c = '\n' || c = '\r' || c = '\x0b' || c = '\x0c'

/-- Drop trailing whitespace characters. -/
def dropTrailSpace (cs : List Char) : List Char :=
  (cs.reverse.dropWhile isPySpace).reverse

/-- Python `s.strip()`. -/
def trimStr (s : String) : String :=
  .mk (dropTrailSpace (s.data.dropWhile isPySpace))

/-- Python `s.lower()`. -/
def lowerStr (s : String) : String := .mk (s.data.map Char.toLower)

/-- Python `s.upper()`. -/
def upperStr (s : String) : String := .mk (s.data.map Char.toUpper)

/-- Python `s.split(sep)` for a one-character separator, accumulating the
    current field in reverse. -/
def splitCharAux (sep : Char) : List Char → List Char → List String
  | [], cur => [.mk cur.reverse]
  | c :: cs, cur =>
    if c = sep then .mk cur.reverse :: splitCharAux sep cs []
    else splitCharAux sep cs (c :: cur)

/-- Python `s.split(",")` (note `"".split(",") == [""]`). -/
def splitComma (s : String) : List String := splitCharAux ',' s.data []

/-- Python `sep.join(strings)`. -/
def joinSep (sep : String) : List String → String
  | [] => ""
  | [x] => x
  | x :: xs => x ++ sep ++ joinSep sep xs

/-- Extract the strings of a list of values: TypeError on any non-string
    (the check `str.join` performs element by element). -/
def strList : List JVal → Except PyErr (List String)
  | [] => .ok []
  | .str x :: xs =>
    match strList xs with
    | .ok rest => .ok (x :: rest)
    | .error e => .error e
  | _ :: _ => .error .typeError

/-- Python `sep.join(values)` over a list of values: TypeError unless every
    element is a string. -/
def pyJoinVals (sep : String) (vs : List JVal) : Except PyErr String :=
  match strList vs with
  | .ok ss => .ok (joinSep sep ss)
  | .error e => .error e

/-- Is `pat` a prefix of `cs`, comparing characters case-insensitively
    (re.IGNORECASE over the ASCII data in play). -/
def ciPrefix : List Char → List Char → Bool
  | [], _ => true
  | _ :: _, [] => false
  | p :: ps, c :: cs => (p.toLower = c.toLower) && ciPrefix ps cs

/-- A regex word character (`\w`) for the ASCII data in play. -/
def isWordChar (c : Char) : Bool := c.isAlphanum || c = '_'

/-- Whether the optional character at a boundary position is a word character
    (outside the string counts as non-word). -/
def isWordOpt : Option Char → Bool
  | some c => isWordChar c
  | none => false

/-- The character just before position `p`, if any. -/
def charBefore (cs : List Char) (p : Nat) : Option Char :=
  match p with
  | 0 => none
  | q + 1 => cs.get? q

/-- The `\b` assertion of the Python re module at position `p`: word-ness changes
    between the previous and next character. -/
def wordBoundary (cs : List Char) (p : Nat) : Bool :=
  isWordOpt (charBefore cs p) != isWordOpt (cs.get? p)

/-- Does `\b<term>\b` (term taken literally, as after re.escape) match `txt`
    at some position, case-insensitively — the search in `mentions`. -/
def mentionsStr (txt term : String) : Bool :=
  let cs := txt.data
  let ps := term.data
  (List.range (cs.length + 1)).any fun i =>
    ciPrefix ps (cs.drop i) && wordBoundary cs i && wordBoundary cs (i + ps.length)

/-- Substring containment (Python `needle in hay`). -/
def strContains (hay needle : String) : Bool :=
  (List.range (hay.data.length + 1)).any fun i =>
    needle.data.isPrefixOf (hay.data.drop i)

/-- Python `s.replace(old, new)` for one-character old/new. -/
def replaceChar (old new : Char) (s : String) : String :=
  .mk (s.data.map fun c => if c = old then new else c)

/-- Python `s.title()`: a cased character starts upper after a non-letter,
    and the rest of each letter run is lowered. -/
def titleAux : Bool → List Char → List Char
  | _, [] => []
  | prev, c :: cs =>
    if c.isAlpha then (if prev then c.toLower else c.toUpper) :: titleAux true cs
    else c :: titleAux false cs

/-- Python `s.title()`. -/
def titleStr (s : String) : String := .mk (titleAux false s.data)

/-- Python `s.strip()` on a value: AttributeError unless it is a string. -/
def pyStrip : JVal → Except PyErr String
  | .str s => .ok (trimStr s)
  | _ => .error .attributeError

/-- Python `s.lower()` on a value: AttributeError unless it is a string. -/
def pyLower : JVal → Except PyErr String
  | .str s => .ok (lowerStr s)
  | _ => .error .attributeError

/-- A single-quoted string, as Python repr renders strings (the quoting of
    exotic strings is beyond the data in play). -/
def quoteStr (s : String) : String :=
  String.mk [Char.ofNat 39] ++ s ++ String.mk [Char.ofNat 39]

mutual
/-- Python `repr(v)` (how values nest inside the str() of lists/dicts). -/
def reprJ : JVal → String
  | .null => "None"
  | .bool true => "True"
  | .bool false => "False"
  | .int n => toString n
  | .str s => quoteStr s
  | .list xs => "[" ++ reprListJ xs ++ "]"
  | .dict xs => "\x7b" ++ reprDictJ xs ++ "\x7d"

def reprListJ : List JVal → String
  | [] => ""
  | [x] => reprJ x
  | x :: xs => reprJ x ++ ", " ++ reprListJ xs

def reprDictJ : List (String × JVal) → String
  | [] => ""
  | [(k, v)] => quoteStr k ++ ": " ++ reprJ v
  | (k, v) :: xs => quoteStr k ++ ": " ++ reprJ v ++ ", " ++ reprDictJ xs
end

/-- Python `str(v)`. -/
def pyStr : JVal → String
  | .null => "None"
  | .bool true => "True"
  | .bool false => "False"
  | .int n => toString n
  | .str s => s
  | .list xs => "[" ++ reprListJ xs ++ "]"
  | .dict xs => "\x7b" ++ reprDictJ xs ++ "\x7d"

/-! ## ctgov_client.py -/

/-- The curated diagnosis synonym table (ctgov_client.py lines 6-16). -/
def DEFAULT_DIAG_TERMS : List (String × List String) :=
  [("Glioblastoma", ["glioblastoma", "GBM", "glioblastoma multiforme"]),
   ("Diffuse midline glioma", ["diffuse midline glioma", "DMG", "H3 K27M"]),
   ("Anaplastic astrocytoma", ["anaplastic astrocytoma", "grade 3 astrocytoma"]),
   ("Astrocytoma", ["astrocytoma", "grade 2 astrocytoma", "grade 4 astrocytoma"]),
   ("Oligodendroglioma", ["oligodendroglioma", "1p19q codeleted"]),
   ("Meningioma", ["meningioma"]),
   ("Medulloblastoma", ["medulloblastoma"]),
   ("Ependymoma", ["ependymoma"]),
   ("Spinal cord tumor", ["spinal cord tumor", "spinal cord neoplasm"])]

/-- Lookup in the synonym table. -/
def lookupTerms : List (String × List String) → String → Option (List String)
  | [], _ => none
  | (k, v) :: rest, key => if k = key then some v else lookupTerms rest key

/-- `diagnosis in DEFAULT_DIAG_TERMS` / `DEFAULT_DIAG_TERMS[diagnosis]`. -/
def diagKnown (d : String) : Option (List String) := lookupTerms DEFAULT_DIAG_TERMS d

/-- The keyword clean-up `[k.strip() for k in keywords.split(",") if k.strip()]`. -/
def userKeywords (keywords : String) : List String :=
  ((splitComma keywords).map trimStr).filter (· != "")

/-- The lines 24-27 of `build_terms`: the curated synonym list of a known
    category, or the broad fallback set. -/
def diagBase (diagnosis : String) : List String :=
  match diagKnown diagnosis with
  | some syns => syns
  | none => ["brain tumor", "spinal cord tumor", "CNS tumor"]

/-- `build_terms(diagnosis, keywords)` (ctgov_client.py lines 22-29). -/
def build_terms (diagnosis keywords : String) : List String :=
  diagBase diagnosis ++ userKeywords keywords

/-- `mentions(txt, term)` (ctgov_client.py lines 76-77): `re.escape` raises on a
    non-string term, `txt or ""` must be a string for `re.search`. -/
def mentions (txt term : JVal) : Except PyErr Bool :=
  match term with
  | .str t =>
    match pyOr txt (.str "") with
    | .str s => .ok (mentionsStr s t)
    | _ => .error .typeError
  | _ => .error .typeError

/-- The `textblock`/`textBlock`/`value` probe of `as_text` on a dict. -/
def asTextKeys (xs : List (String × JVal)) : Option String :=
  if (findVal xs "textblock").isSome then
    some (pyStr (pyOr (lookupJ xs "textblock") (.str "")))
  else if (findVal xs "textBlock").isSome then
    some (pyStr (pyOr (lookupJ xs "textBlock") (.str "")))
  else if (findVal xs "value").isSome then
    some (pyStr (pyOr (lookupJ xs "value") (.str "")))
  else none

/-- `" ".join(str(v) for v in obj.values() if v is not None)`. -/
def dictValsStr (xs : List (String × JVal)) : List String :=
  xs.filterMap fun p =>
    match p.2 with
    | .null => none
    | v => some (pyStr v)

mutual
/-- `as_text(obj)` (ctgov_client.py lines 80-90). -/
def as_text : JVal → String
  | .null => ""
  | .dict xs =>
    match asTextKeys xs with
    | some s => s
    | none => joinSep " " (dictValsStr xs)
  | .list xs => joinSep "; " (asTextList xs)
  | .bool b => pyStr (.bool b)
  | .int n => pyStr (.int n)
  | .str s => s

def asTextList : List JVal → List String
  | [] => []
  | x :: xs => as_text x :: asTextList xs
end

/-- Numeric value of a digit run. -/
def digitsVal (cs : List Char) : Nat := cs.foldl (fun n c => 10 * n + (c.toNat - 48)) 0

/-- `re.search(r"(\d+)", s)`: the first maximal digit run in `s`, as an int. -/
def firstIntToken (s : String) : Option Int :=
  match s.data.dropWhile (fun c => !c.isDigit) with
  | [] => none
  | ds => some (Int.ofNat (digitsVal (ds.takeWhile Char.isDigit)))

mutual
/-- `parse_age_to_int(v)` (ctgov_client.py lines 93-101); note `isinstance(v,
    (int, float))` is true for bools, and dicts recurse into `v.get("value")`. -/
def parse_age_to_int : JVal → Option Int
  | .null => none
  | .bool b => some (if b then 1 else 0)
  | .int n => some n
  | .str s => firstIntToken s
  | .list xs => firstIntToken (pyStr (.list xs))
  | .dict xs => parseAgeValue xs

def parseAgeValue : List (String × JVal) → Option Int
  | [] => none
  | (k, v) :: rest => if k = "value" then parse_age_to_int v else parseAgeValue rest
end

/-- `ensure_list(v)` (ctgov_client.py lines 104-109). -/
def ensure_list : JVal → List JVal
  | .null => []
  | .list xs => xs
  | v => [v]

/-- The diagnosis term list of `score_trial` (ctgov_client.py lines 120-125);
    membership of an unhashable value in `DEFAULT_DIAG_TERMS` raises. -/
def diagTermsFor (diagnosis_local : JVal) : Except PyErr (List JVal) :=
  match diagnosis_local with
  | .list _ => .error .typeError
  | .dict _ => .error .typeError
  | .str s =>
    match diagKnown s with
    | some syns => .ok (syns.map .str)
    | none =>
      if s != "" && s != "Other" then .ok [.str s]
      else .ok [.str "brain tumor", .str "CNS tumor", .str "spinal cord tumor"]
  | v =>
    if truthy v then .ok [v]
    else .ok [.str "brain tumor", .str "CNS tumor", .str "spinal cord tumor"]

/-- Criteria text and age bounds from the eligibility module
    (ctgov_client.py lines 128-138). -/
def extractCrit (elig : JVal) : String × Option Int × Option Int :=
  match elig with
  | .dict xs =>
    let crit_raw := pyOr (pyOr (lookupJ xs "eligibilityCriteria") (lookupJ xs "criteria")) (.dict xs)
    (as_text crit_raw, parse_age_to_int (lookupJ xs "minimumAge"),
     parse_age_to_int (lookupJ xs "maximumAge"))
  | .str s => (as_text (.str s), none, none)
  | _ => ("", none, none)

/-- `any(mentions(x, term) for term in terms)`, short-circuiting. -/
def anyMentionsE (x : JVal) : List JVal → Except PyErr Bool
  | [] => .ok false
  | t :: ts =>
    match mentions x t with
    | .error e => .error e
    | .ok true => .ok true
    | .ok false => anyMentionsE x ts

/-- `any(any(mentions(c, term) for term in terms) for c in conds)`. -/
def condsAnyE (terms : List JVal) : List JVal → Except PyErr Bool
  | [] => .ok false
  | c :: cs =>
    match anyMentionsE c terms with
    | .error e => .error e
    | .ok true => .ok true
    | .ok false => condsAnyE terms cs

/-- The diagnosis-match reason string, with its trailing period
    (ctgov_client.py line 149). -/
def diagReason (diagnosis_local : JVal) : String :=
  "Matches diagnosis: " ++ pyStr (pyOr diagnosis_local (.str "neuro-oncology")) ++ "."

/-- The +30 diagnosis rule (ctgov_client.py lines 147-149). -/
def ruleDiag (conds : List JVal) (title : JVal) (terms : List JVal) (diagnosis_local : JVal)
    (acc : Int × List String) : Except PyErr (Int × List String) :=
  match condsAnyE terms conds with
  | .error e => .error e
  | .ok true => .ok (acc.1 + 30, acc.2 ++ [diagReason diagnosis_local])
  | .ok false =>
    match anyMentionsE title terms with
    | .error e => .error e
    | .ok true => .ok (acc.1 + 30, acc.2 ++ [diagReason diagnosis_local])
    | .ok false => .ok acc

/-- The phase bonuses (ctgov_client.py lines 150-153). -/
def phaseBonus (phases_up : List String) (s : Int) : Int :=
  let s2 := if phases_up.any (fun p => strContains p "PHASE 2" || strContains p "PHASE2")
            then s + 8 else s
  if phases_up.any (fun p => strContains p "PHASE 3" || strContains p "PHASE3")
  then s2 + 12 else s2

/-- The age checks inside `try: ... except Exception: pass`
    (ctgov_client.py lines 154-162): a comparison TypeError abandons the rest
    of the block but keeps the effects already applied. -/
def ruleAge (minA maxA : Option Int) (age : JVal) (acc : Int × List String) : Int × List String :=
  let step1 : Except PyErr (Int × List String) :=
    match minA with
    | none => .ok acc
    | some m =>
      if isNull age then .ok acc
      else
        match pyLtI age m with
        | .error e => .error e
        | .ok true => .ok (acc.1 - 30, acc.2 ++ ["Age below minimum (" ++ toString m ++ ")."])
        | .ok false => .ok acc
  match step1 with
  | .error _ => acc
  | .ok acc1 =>
    match maxA with
    | none => acc1
    | some mx =>
      if isNull age then acc1
      else
        match pyGtI age mx with
        | .error _ => acc1
        | .ok true => (acc1.1 - 30, acc1.2 ++ ["Age above maximum (" ++ toString mx ++ ")."])
        | .ok false => acc1

/-- The ECOG 0-1 rule (ctgov_client.py lines 163-165); comparing a non-numeric
    KPS raises (uncaught). -/
def ruleECOG (crit : String) (kps : JVal) (acc : Int × List String) :
    Except PyErr (Int × List String) :=
  if mentionsStr crit "ECOG 0-1" then
    if isNull kps then .ok (acc.1 - 15, acc.2 ++ ["Requires ECOG 0–1 (KPS ~≥80)."])
    else
      match pyLtI kps 80 with
      | .error e => .error e
      | .ok true => .ok (acc.1 - 15, acc.2 ++ ["Requires ECOG 0–1 (KPS ~≥80)."])
      | .ok false => .ok acc
  else .ok acc

/-- The Karnofsky rule (ctgov_client.py lines 166-168). -/
def ruleKarnofsky (crit : String) (kps : JVal) (acc : Int × List String) :
    Except PyErr (Int × List String) :=
  if mentionsStr crit "Karnofsky" then
    if isNull kps then .ok (acc.1 - 10, acc.2 ++ ["Requires KPS ≥70."])
    else
      match pyLtI kps 70 with
      | .error e => .error e
      | .ok true => .ok (acc.1 - 10, acc.2 ++ ["Requires KPS ≥70."])
      | .ok false => .ok acc
  else .ok acc

/-- The prior-bevacizumab exclusion (ctgov_client.py lines 169-171). -/
def ruleBev (prior : Bool) (crit : String) (acc : Int × List String) : Int × List String :=
  if prior && mentionsStr crit "no prior bevacizumab" then
    (acc.1 - 25, acc.2 ++ ["Excludes prior bevacizumab."])
  else acc

/-- The setting bonuses (ctgov_client.py lines 172-175). -/
def ruleSetting (setting : JVal) (crit : String) (title : JVal) (s : Int) :
    Except PyErr Int :=
  let s1 := if pyEq setting (.str "Recurrent") && mentionsStr crit "recurrent" then s + 8 else s
  if pyEq setting (.str "Newly diagnosed") then
    if mentionsStr crit "newly diagnosed" then .ok (s1 + 8)
    else
      match mentions title (.str "adjuvant") with
      | .error e => .error e
      | .ok true => .ok (s1 + 8)
      | .ok false => .ok s1
  else .ok s1

/-- The per-keyword +3 loop (ctgov_client.py lines 176-178). -/
def kwLoop (title : JVal) (crit : String) : List String → Int → Except PyErr Int
  | [], s => .ok s
  | kw :: rest, s =>
    match mentions title (.str kw) with
    | .error e => .error e
    | .ok true => kwLoop title crit rest (s + 3)
    | .ok false =>
      if mentionsStr crit kw then kwLoop title crit rest (s + 3)
      else kwLoop title crit rest s

/-- The keyword rule (ctgov_client.py lines 176-178): splitting a non-string
    keywords value raises AttributeError. -/
def ruleKeywords (keywords : JVal) (title : JVal) (crit : String) (s : Int) :
    Except PyErr Int :=
  match pyOr keywords (.str "") with
  | .str ks => kwLoop title crit (userKeywords ks) s
  | _ => .error .attributeError

/-- `score_trial(t, intake)` before the final clamp
    (ctgov_client.py lines 112-178). -/
def scoreRaw (t intake : JVal) : Except PyErr (Int × List String) :=
  match pyOr intake (.dict []) with
  | .dict ixs =>
    let age_local := lookupJ ixs "age"
    let kps_local := lookupJ ixs "kps"
    let prior_bev_local := truthy (lookupD ixs "prior_bev" (.bool false))
    let setting_local := pyOr (lookupJ ixs "setting") (.str "")
    let keywords_local := pyOr (lookupJ ixs "keywords") (.str "")
    let diagnosis_local := pyOr (lookupJ ixs "diagnosis") (.str "")
    match diagTermsFor diagnosis_local with
    | .error e => .error e
    | .ok diag_terms =>
      match pyOr t (.dict []) with
      | .dict txs =>
        match pyOr (lookupJ txs "protocolSection") (.dict []) with
        | .dict pxs =>
          let elig := lookupJ pxs "eligibilityModule"
          let critAges := extractCrit elig
          let crit := critAges.1
          let min_age := critAges.2.1
          let max_age := critAges.2.2
          match lookupD pxs "designModule" (.dict []) with
          | .dict dxs =>
            let phases_list := ensure_list (lookupJ dxs "phases")
            let phases_up := phases_list.map (fun p => upperStr (pyStr p))
            match lookupD pxs "conditionsModule" (.dict []) with
            | .dict cxs =>
              let conds_list := ensure_list (lookupJ cxs "conditions")
              match pyOr (lookupD pxs "identificationModule" (.dict [])) (.dict []) with
              | .dict imxs =>
                let title := lookupD imxs "briefTitle" (.str "")
                match ruleDiag conds_list title diag_terms diagnosis_local (0, []) with
                | .error e => .error e
                | .ok acc1 =>
                  let acc2 := (phaseBonus phases_up acc1.1, acc1.2)
                  let acc3 := ruleAge min_age max_age age_local acc2
                  match ruleECOG crit kps_local acc3 with
                  | .error e => .error e
                  | .ok acc4 =>
                    match ruleKarnofsky crit kps_local acc4 with
                    | .error e => .error e
                    | .ok acc5 =>
                      let acc6 := ruleBev prior_bev_local crit acc5
                      match ruleSetting setting_local crit title acc6.1 with
                      | .error e => .error e
                      | .ok s7 =>
                        match ruleKeywords keywords_local title crit s7 with
                        | .error e => .error e
                        | .ok s8 => .ok (s8, acc6.2)
              | _ => .error .attributeError
            | _ => .error .attributeError
          | _ => .error .attributeError
        | _ => .error .attributeError
      | _ => .error .attributeError
  | _ => .error .attributeError

/-- `score_trial(t, intake)` (ctgov_client.py lines 112-179): the raw additive
    sum, clamped to [0, 100] on return. -/
def score_trial (t intake : JVal) : Except PyErr (Int × List String) :=
  match scoreRaw t intake with
  | .ok (s, reasons) => .ok (max 0 (min 100 s), reasons)
  | .error e => .error e

/-- A value must be a dict before `.get`/`.strip` style access
    (AttributeError otherwise). -/
def asDict : JVal → Except PyErr (List (String × JVal))
  | .dict xs => .ok xs
  | _ => .error .attributeError

/-- The `city_country` field of `extract_row` (ctgov_client.py lines 208-215):
    built from the first location when the list is non-empty. -/
def cityCountryOf (locs : List JVal) : Except PyErr String :=
  match locs with
  | [] => .ok ""
  | first :: _ =>
    match pyGet first "locationCity" with
    | .error e => .error e
    | .ok cityv =>
      match pyStrip (pyOr cityv (.str "")) with
      | .error e => .error e
      | .ok city =>
        match pyGet first "locationCountry" with
        | .error e => .error e
        | .ok countryv =>
          match pyStrip (pyOr countryv (.str "")) with
          | .error e => .error e
          | .ok country => .ok (joinSep ", " ([city, country].filter (· != "")))

/-- The `sponsor` field of `extract_row` (ctgov_client.py lines 203-206). -/
def sponsorOf (slm : List (String × JVal)) : Except PyErr String :=
  match pyOr (lookupJ slm "leadSponsor") (.dict []) with
  | .dict lxs => pyStrip (pyOr (lookupJ lxs "name") (.str ""))
  | _ => .ok ""

/-- `extract_row(study)` (ctgov_client.py lines 181-225): a flat row dict,
    with each module looked up and used in source order. -/
def extract_row (study : JVal) : Except PyErr JVal :=
  match asDict study with
  | .error e => .error e
  | .ok sxs =>
    match asDict (pyOr (lookupJ sxs "protocolSection") (.dict [])) with
    | .error e => .error e
    | .ok pxs =>
      match asDict (pyOr (lookupJ pxs "identificationModule") (.dict [])) with
      | .error e => .error e
      | .ok idm =>
        match pyStrip (pyOr (pyOr (lookupJ idm "officialTitle") (lookupJ idm "briefTitle")) (.str "")) with
        | .error e => .error e
        | .ok title =>
          match pyStrip (pyOr (lookupJ idm "nctId") (.str "")) with
          | .error e => .error e
          | .ok nct =>
            match asDict (pyOr (lookupJ pxs "statusModule") (.dict [])) with
            | .error e => .error e
            | .ok scm =>
              match pyStrip (pyOr (lookupJ scm "overallStatus") (.str "")) with
              | .error e => .error e
              | .ok status_raw =>
                let status := if status_raw != "" then titleStr (replaceChar '_' ' ' status_raw) else ""
                match asDict (pyOr (lookupJ pxs "designModule") (.dict [])) with
                | .error e => .error e
                | .ok dsm =>
                  match pyJoinVals ", " (ensure_list (lookupJ dsm "phases")) with
                  | .error e => .error e
                  | .ok phases =>
                    match asDict (pyOr (lookupJ pxs "conditionsModule") (.dict [])) with
                    | .error e => .error e
                    | .ok cdnm =>
                      match pyJoinVals ", " (ensure_list (lookupJ cdnm "conditions")) with
                      | .error e => .error e
                      | .ok conditions =>
                        match asDict (pyOr (lookupJ pxs "sponsorCollaboratorsModule") (.dict [])) with
                        | .error e => .error e
                        | .ok slm =>
                          match sponsorOf slm with
                          | .error e => .error e
                          | .ok sponsor =>
                            match asDict (pyOr (lookupJ pxs "contactsLocationsModule") (.dict [])) with
                            | .error e => .error e
                            | .ok clm =>
                              match cityCountryOf (ensure_list (lookupJ clm "locations")) with
                              | .error e => .error e
                              | .ok city_country =>
                                .ok (.dict
                                  [("title", .str title),
                                   ("nct", .str nct),
                                   ("status", .str status),
                                   ("phases", .str phases),
                                   ("conditions", .str conditions),
                                   ("sponsor", .str sponsor),
                                   ("city_country", .str city_country)])

/-! ## The registry HTTP layer, modelled as an oracle -/

/-- The parameters of one page request (ctgov_client.py lines 40-46): term, the
    comma-joined status filter, page size, and the optional continuation
    token. -/
structure Req where
  term : String
  statusFilter : String
  pageSize : Nat
  pageToken : Option JVal

/-- What the registry does with one page request: a non-2xx status
    (so `raise_for_status` raises HTTPError), a timeout, a body that is not
    JSON (`r.json()` raises), or a parsed JSON body. -/
inductive NetResult where
  | httpErr
  | timeoutErr
  | badJson
  | okJson (body : JVal)

/-- A network oracle: the fixed response of the registry to each request. -/
def Net := Req → NetResult

/-- The pagination loop of `ctgov_search_one` (ctgov_client.py lines 39-57),
    with the remaining iteration budget `count < max_iters` as fuel. -/
def searchLoop (net : Net) (term : String) (statuses : List String) (pageSize : Nat) :
    Nat → Option JVal → List JVal → Except PyErr (List JVal)
  | 0, _, acc => .ok acc
  | fuel + 1, tok, acc =>
    match net ⟨term, joinSep "," statuses, pageSize, tok⟩ with
    | .httpErr => .error .httpError
    | .timeoutErr => .error .timeout
    | .badJson => .error .jsonDecodeError
    | .okJson data =>
      match data with
      | .dict xs =>
        let studies := lookupD xs "studies" (.list [])
        if !truthy studies then .ok acc
        else
          match pyIter studies with
          | .error e => .error e
          | .ok elems =>
            let acc2 := acc ++ elems
            let tok2 := lookupJ xs "nextPageToken"
            if truthy tok2 then searchLoop net term statuses pageSize fuel (some tok2) acc2
            else .ok acc2
      | _ => .error .attributeError

/-- `ctgov_search_one(term, statuses, page_size, max_pages)`
    (ctgov_client.py lines 32-58). -/
def ctgov_search_one (net : Net) (term : String) (statuses : List String)
    (pageSize : Nat := 100) (maxPages : Nat := 5) : Except PyErr (List JVal) :=
  searchLoop net term statuses pageSize maxPages none []

/-- A deduplication key of `fetch_all_terms`: the `nctId` of the trial when truthy,
    else the object identity `id(s)` (fresh per fetched record). -/
inductive Key where
  | kVal (v : JVal)
  | kId (n : Nat)

/-- Key equality as the dedup dict compares keys. -/
def keyEq : Key → Key → Bool
  | .kVal a, .kVal b => pyEq a b
  | .kId m, .kId n => m = n
  | _, _ => false

/-- Is a key already present in the dedup dict. -/
def keyMem (k : Key) (acc : List (Key × JVal)) : Bool :=
  acc.any fun p => keyEq p.1 k

/-- The `nctId` of a record as `fetch_all_terms` reads it
    (ctgov_client.py lines 66-67). -/
def nctOf (s : JVal) : Except PyErr JVal :=
  match pyGetD s "protocolSection" (.dict []) with
  | .error e => .error e
  | .ok a =>
    match pyGetD (pyOr a (.dict [])) "identificationModule" (.dict []) with
    | .error e => .error e
    | .ok b => pyGet (pyOr b (.dict [])) "nctId"

/-- `key = nct or id(s)` (ctgov_client.py line 68); an unhashable nct raises
    when used as a dict key. -/
def recKey (s : JVal) (fresh : Nat) : Except PyErr Key :=
  match nctOf s with
  | .error e => .error e
  | .ok nct =>
    if truthy nct then
      match nct with
      | .list _ => .error .typeError
      | .dict _ => .error .typeError
      | v => .ok (.kVal v)
    else .ok (.kId fresh)

/-- Insert the records of one term into the dedup dict, first-seen-wins
    (ctgov_client.py lines 65-70). -/
def insertStudies : List JVal → Nat → List (Key × JVal) → Except PyErr (Nat × List (Key × JVal))
  | [], fresh, acc => .ok (fresh, acc)
  | s :: ss, fresh, acc =>
    match recKey s fresh with
    | .error e => .error e
    | .ok k =>
      insertStudies ss (fresh + 1) (if keyMem k acc then acc else acc ++ [(k, s)])

/-- The per-term loop of `fetch_all_terms` (ctgov_client.py lines 63-72):
    only `requests.HTTPError` is swallowed. -/
def fetchLoop (net : Net) (statuses : List String) (pageSize maxPages : Nat) :
    List String → Nat → List (Key × JVal) → Except PyErr (List (Key × JVal))
  | [], _, acc => .ok acc
  | t :: ts, fresh, acc =>
    match ctgov_search_one net t statuses pageSize maxPages with
    | .error .httpError => fetchLoop net statuses pageSize maxPages ts fresh acc
    | .error e => .error e
    | .ok studies =>
      match insertStudies studies fresh acc with
      | .error e => .error e
      | .ok (fresh2, acc2) => fetchLoop net statuses pageSize maxPages ts fresh2 acc2

/-- `fetch_all_terms(terms, statuses, page_size, max_pages)`
    (ctgov_client.py lines 61-73): `list(dedup.values())`. -/
def fetch_all_terms (net : Net) (terms : List String) (statuses : List String)
    (pageSize : Nat := 100) (maxPages : Nat := 5) : Except PyErr (List JVal) :=
  match fetchLoop net statuses pageSize maxPages terms 0 [] with
  | .ok acc => .ok (acc.map Prod.snd)
  | .error e => .error e

/-- All per-term results in term order then page order (the stream the merge
    phase of `fetch_all_terms` iterates); failing terms contribute nothing. -/
def gatherAll (net : Net) (statuses : List String) (pageSize maxPages : Nat) :
    List String → List JVal
  | [] => []
  | t :: ts =>
    (match ctgov_search_one net t statuses pageSize maxPages with
     | .ok l => l
     | .error _ => []) ++ gatherAll net statuses pageSize maxPages ts

/-! ## uk_sources.py -/

/-- The status filter of the UK aggregator (uk_sources.py line 11). -/
def STATUSES : List String := ["RECRUITING", "NOT_YET_RECRUITING"]

/-- `_normalize_key(row)` (uk_sources.py lines 14-20). -/
def normalize_key (row : JVal) : Except PyErr String :=
  match pyGet row "nct" with
  | .error e => .error e
  | .ok nv =>
    match pyStrip (pyOr nv (.str "")) with
    | .error e => .error e
    | .ok nct =>
      if nct != "" then .ok ("NCT:" ++ nct)
      else
        match pyGet row "title" with
        | .error e => .error e
        | .ok tv =>
          match pyLower (pyOr tv (.str "")) with
          | .error e => .error e
          | .ok lowered => .ok ("TITLE:" ++ trimStr lowered)

/-- The UK-site filter `[L for L in locs if "united kingdom" in
    (L.get("locationCountry") or "").lower()]` (uk_sources.py line 51). -/
def ukFilter : List JVal → Except PyErr (List JVal)
  | [] => .ok []
  | L :: rest =>
    match pyGet L "locationCountry" with
    | .error e => .error e
    | .ok cv =>
      match pyLower (pyOr cv (.str "")) with
      | .error e => .error e
      | .ok lc =>
        match ukFilter rest with
        | .error e => .error e
        | .ok kept => .ok (if strContains lc "united kingdom" then L :: kept else kept)

/-- The UK locations of one study (uk_sources.py lines 48-51). -/
def ukLocsOf (s : JVal) : Except PyErr (List JVal) :=
  match pyGetD s "protocolSection" (.dict []) with
  | .error e => .error e
  | .ok ps0 =>
    match pyGetD (pyOr ps0 (.dict [])) "contactsLocationsModule" (.dict []) with
    | .error e => .error e
    | .ok clm0 =>
      match pyGet (pyOr clm0 (.dict [])) "locations" with
      | .error e => .error e
      | .ok locs0 =>
        match pyIter (pyOr locs0 (.list [])) with
        | .error e => .error e
        | .ok locs => ukFilter locs

/-- The site display string built from the first UK site
    (uk_sources.py line 58). -/
def mkSite (L : JVal) : Except PyErr String :=
  match pyGetD L "locationFacility" (.str "") with
  | .error e => .error e
  | .ok f =>
    match pyGetD L "locationCity" (.str "") with
    | .error e => .error e
    | .ok c =>
      match pyGetD L "locationCountry" (.str "") with
      | .error e => .error e
      | .ok n => .ok (pyStr f ++ ", " ++ pyStr c ++ ", " ++ pyStr n)

/-- The body of the per-study `try` block of `fetch_uk_trials`
    (uk_sources.py lines 47-62): `none` when the study has no UK site
    (the bare `continue`), otherwise the finished row. -/
def tryRow (intake s : JVal) : Except PyErr (Option JVal) :=
  match ukLocsOf s with
  | .error e => .error e
  | .ok [] => .ok none
  | .ok (first_site :: _) =>
    match score_trial s intake with
    | .error e => .error e
    | .ok (sc, reasons) =>
      match extract_row s with
      | .error e => .error e
      | .ok base =>
        match mkSite first_site with
        | .error e => .error e
        | .ok site =>
          match pySetItem base "site" (.str site) with
          | .error e => .error e
          | .ok r1 =>
            match pySetItem r1 "score" (.int sc) with
            | .error e => .error e
            | .ok r2 =>
              match pySetItem r2 "reasons" (.str (joinSep "; " reasons)) with
              | .error e => .error e
              | .ok r3 =>
                match pyGet r3 "nct" with
                | .error e => .error e
                | .ok nv =>
                  let url := if truthy nv then "https://clinicaltrials.gov/study/" ++ pyStr nv else ""
                  match pySetItem r3 "url" (.str url) with
                  | .error e => .error e
                  | .ok r4 => .ok (some r4)

/-- The per-study loop of `fetch_uk_trials` (uk_sources.py lines 46-65):
    an exception while handling one study increments the skip counter and
    excludes only that study. -/
def processAll (intake : JVal) : List JVal → List JVal × Nat
  | [] => ([], 0)
  | s :: ss =>
    match tryRow intake s with
    | .error _ =>
      let rest := processAll intake ss
      (rest.1, rest.2 + 1)
    | .ok none => processAll intake ss
    | .ok (some r) =>
      let rest := processAll intake ss
      (r :: rest.1, rest.2)

/-- The dedup loop of `fetch_uk_trials` (uk_sources.py lines 67-75):
    keep the first row per normalized key. -/
def dedupRows : List JVal → List String → Except PyErr (List JVal)
  | [], _ => .ok []
  | r :: rs, seen =>
    match normalize_key r with
    | .error e => .error e
    | .ok k =>
      if seen.contains k then dedupRows rs seen
      else
        match dedupRows rs (k :: seen) with
        | .error e => .error e
        | .ok rest => .ok (r :: rest)

/-- Stable insertion into a sorted list: the new element goes before the first
    element it compares `le` to, so existing equal elements stay ahead. -/
def insSorted (le : α → α → Bool) (x : α) : List α → List α
  | [] => [x]
  | y :: ys => if le x y then x :: y :: ys else y :: insSorted le x ys

/-- A stable sort (the documented behavior of Python `list.sort`); a stable
    sort by a key is unique, so this models Timsort faithfully. -/
def isort (le : α → α → Bool) : List α → List α
  | [] => []
  | x :: xs => insSorted le x (isort le xs)

/-- The sort key `-x.get("score", 0)` of one row (uk_sources.py line 78). -/
def rowKeyOf (r : JVal) : Except PyErr Int :=
  match pyGetD r "score" (.int 0) with
  | .error e => .error e
  | .ok v => pyNeg v

/-- Compute the sort keys `-x.get("score", 0)` of all rows (the decorate step
    of `list.sort(key=...)`, uk_sources.py line 78). -/
def keyRows : List JVal → Except PyErr (List (Int × JVal))
  | [] => .ok []
  | r :: rs =>
    match rowKeyOf r with
    | .error e => .error e
    | .ok k =>
      match keyRows rs with
      | .error e => .error e
      | .ok rest => .ok ((k, r) :: rest)

/-- `deduped.sort(key=lambda x: -x.get("score", 0))` (uk_sources.py line 78):
    decorate with keys, stable-sort ascending by key, undecorate. -/
def sortRows (rows : List JVal) : Except PyErr (List JVal) :=
  match keyRows rows with
  | .error e => .error e
  | .ok keyed => .ok ((isort (fun a b => a.1 ≤ b.1) keyed).map Prod.snd)

/-- `fetch_uk_trials(diagnosis, keywords, intake, include_ctgov)`
    (uk_sources.py lines 23-79): returns (rows, total_raw, skipped). -/
def fetch_uk_trials (net : Net) (diagnosis keywords : String) (intake : JVal)
    (include_ctgov : Bool := true) : Except PyErr (List JVal × Nat × Nat) :=
  let terms := build_terms diagnosis keywords
  match (match include_ctgov with
         | true =>
           match fetch_all_terms net terms STATUSES 100 5 with
           | .error e => .error e
           | .ok studies =>
             let pr := processAll intake studies
             .ok (pr.1, studies.length, pr.2)
         | false => .ok ([], 0, 0) : Except PyErr (List JVal × Nat × Nat)) with
  | .error e => .error e
  | .ok (rows, total_raw, skipped) =>
    match dedupRows rows [] with
    | .error e => .error e
    | .ok deduped =>
      match sortRows deduped with
      | .error e => .error e
      | .ok out => .ok (out, total_raw, skipped)

/-! ## Concrete inputs used by the claims -/

/-- The example-scenario intake (spec section 8.7). -/
def intake4 : JVal := .dict
  [("age", .int 55), ("kps", .int 80), ("prior_bev", .bool false),
   ("setting", .str "Recurrent"), ("keywords", .str "vaccine"),
   ("diagnosis", .str "Glioblastoma")]

/-- The example-scenario record (spec section 8.7). -/
def rec4 : JVal := .dict [("protocolSection", .dict
  [("identificationModule", .dict
     [("briefTitle", .str "A Vaccine Trial for Recurrent Glioblastoma")]),
   ("conditionsModule", .dict [("conditions", .list [.str "Glioblastoma"])]),
   ("designModule", .dict [("phases", .list [.str "PHASE3"])]),
   ("eligibilityModule", .dict
     [("eligibilityCriteria",
       .str "Patients with recurrent glioblastoma are eligible to receive vaccine therapy."),
      ("minimumAge", .str "18 Years"), ("maximumAge", .null)])])]

/-- A record whose designModule is present but null: `ps.get("designModule",
    \x7b\x7d)` then returns None and `.get("phases")` raises. -/
def recNullDesign : JVal := .dict [("protocolSection", .dict [("designModule", .null)])]

/-- A record whose locations field is a non-empty string: `ensure_list` wraps
    it, and `locs[0].get(...)` in `extract_row` raises on the string. -/
def recStrLocations : JVal := .dict [("protocolSection", .dict
  [("contactsLocationsModule", .dict [("locations", .str "x")])])]

/-- A trial stating a minimum age, with a matching condition so the raw score
    is positive and a penalty would be visible after clamping. -/
def recMinAge18 : JVal := .dict [("protocolSection", .dict
  [("conditionsModule", .dict [("conditions", .list [.str "Glioblastoma"])]),
   ("eligibilityModule", .dict [("minimumAge", .str "18 Years")])])]

/-- An intake giving only the diagnosis — age and KPS absent. -/
def intakeNoAge : JVal := .dict [("diagnosis", .str "Glioblastoma")]

/-- A record whose only phase information is the scalar string given. -/
def recWithPhases (v : JVal) : JVal :=
  .dict [("protocolSection", .dict [("designModule", .dict [("phases", v)])])]

/-- A field of a successfully extracted row. -/
def rowField (e : Except PyErr JVal) (k : String) : Option JVal :=
  match e with
  | .ok (.dict xs) => findVal xs k
  | _ => none

/-! ## Helper lemmas -/

theorem data_mk (l : List Char) : (String.mk l).data = l := rfl

theorem dropWhile_length_le {α : Type} (p : α → Bool) (l : List α) :
    (List.dropWhile p l).length ≤ l.length := by
  induction l with
  | nil => simp
  | cons a t ih =>
    rw [List.dropWhile_cons]
    by_cases h : p a
    · simp only [h, if_true, List.length_cons]
      omega
    · simp [h]

theorem dropWhile_eq_self_of_prefix {p : Char → Bool} :
    ∀ {l m : List Char}, m <+: l → List.dropWhile p l = l → List.dropWhile p m = m := by
  intro l m hp hl
  cases m with
  | nil => rfl
  | cons a t =>
    obtain ⟨r, rfl⟩ := hp
    rw [List.cons_append] at hl
    rw [List.dropWhile_cons] at hl ⊢
    by_cases h : p a
    · rw [if_pos h] at hl
      have hlen := dropWhile_length_le p (t ++ r)
      rw [hl] at hlen
      simp at hlen
    · rw [if_neg h]

theorem dropTrailSpace_eq_rdropWhile (l : List Char) :
    dropTrailSpace l = List.rdropWhile isPySpace l := rfl

theorem trimStr_idem (s : String) : trimStr (trimStr s) = trimStr s := by
  unfold trimStr
  simp only [data_mk, dropTrailSpace_eq_rdropWhile]
  have h1 : List.dropWhile isPySpace (s.data.dropWhile isPySpace)
      = s.data.dropWhile isPySpace := List.dropWhile_idempotent _ _
  have h2 : List.dropWhile isPySpace
      (List.rdropWhile isPySpace (s.data.dropWhile isPySpace))
      = List.rdropWhile isPySpace (s.data.dropWhile isPySpace) :=
    dropWhile_eq_self_of_prefix (List.rdropWhile_prefix _ _) h1
  rw [h2, List.rdropWhile_idempotent]

/-! ## Claims -/

/-- C3: for every record/intake pair, whenever `score_trial` returns, the
    integer in its first component lies in [0, 100], however far the raw
    additive sum of rule deltas over- or undershoots that range. -/
theorem score_trial_bounded (t intake : JVal) (s : Int) (reasons : List String)
    (h : score_trial t intake = .ok (s, reasons)) : 0 ≤ s ∧ s ≤ 100 := by
  unfold score_trial at h
  cases hr : scoreRaw t intake with
  | error e => rw [hr] at h; cases h
  | ok p =>
    obtain ⟨s0, rs0⟩ := p
    rw [hr] at h
    have hs : max 0 (min 100 s0) = s := (Prod.mk.injEq _ _ _ _).mp (Except.ok.inj h) |>.1
    omega

/-- Witness for C3 at a concrete record and intake. -/
theorem score_trial_bounded_witness : 0 ≤ (0 : Int) ∧ (0 : Int) ≤ 100 :=
  score_trial_bounded (.dict []) (.dict []) 0 [] rfl

/-- C4, counterexample: on the example-scenario inputs the reason list is not
    `["Matches diagnosis: Glioblastoma"]` — the code emits a trailing period. -/
theorem example_scenario_reasons_mismatch :
    score_trial rec4 intake4 ≠ .ok (53, ["Matches diagnosis: Glioblastoma"]) := by
  intro h
  rw [show score_trial rec4 intake4
      = .ok (53, ["Matches diagnosis: Glioblastoma."]) from rfl] at h
  simp at h

/-- C4, amended: the example scenario scores 53 (30 diagnosis + 12 phase 3 +
    8 recurrent setting + 3 keyword) with reasons exactly
    `["Matches diagnosis: Glioblastoma."]` (trailing period included). -/
theorem example_scenario_score53 :
    score_trial rec4 intake4 = .ok (53, ["Matches diagnosis: Glioblastoma."]) := rfl

/-- C5, counterexample: with the minimum age stated (18) and the intake age
    absent, no age penalty applies — the score stays 30 and no age reason is
    emitted, where the claim demands the -30 penalty. -/
theorem missing_age_no_penalty :
    score_trial recMinAge18 intakeNoAge = .ok (30, ["Matches diagnosis: Glioblastoma."]) := rfl

/-- C5, amended: a missing KPS is treated as not satisfying the positive
    requirement (the ECOG 0-1 and Karnofsky penalties fire when KPS is null),
    but a missing age disables the age rules entirely: with a null age the age
    block leaves score and reasons unchanged, for any stated bounds; unknown
    values never satisfy a requirement. -/
theorem missing_kps_penalized_missing_age_skipped :
    (∀ (minA maxA : Option Int) (acc : Int × List String), ruleAge minA maxA .null acc = acc)
    ∧ (∀ (m : Int), score_trial
        (.dict [("protocolSection", .dict [("eligibilityModule", .dict
          [("eligibilityCriteria", .str "none"), ("minimumAge", .int m)])])])
        (.dict []) = .ok (0, []))
    ∧ (∀ (crit : String) (acc : Int × List String), mentionsStr crit "ECOG 0-1" = true →
        ruleECOG crit .null acc = .ok (acc.1 - 15, acc.2 ++ ["Requires ECOG 0–1 (KPS ~≥80)."]))
    ∧ (∀ (crit : String) (acc : Int × List String), mentionsStr crit "Karnofsky" = true →
        ruleKarnofsky crit .null acc = .ok (acc.1 - 10, acc.2 ++ ["Requires KPS ≥70."])) := by
  refine ⟨?_, fun m => rfl, ?_, ?_⟩
  · intro minA maxA acc
    cases minA <;> cases maxA <;> simp [ruleAge, isNull]
  · intro crit acc h
    simp [ruleECOG, h, isNull]
  · intro crit acc h
    simp [ruleKarnofsky, h, isNull]

/-- Witness for C5 amended, at concrete bounds, criteria and accumulators. -/
theorem missing_kps_penalized_missing_age_skipped_witness :
    ruleAge (some 18) (some 65) .null (7, ["r"]) = (7, ["r"])
    ∧ ruleECOG "ECOG 0-1 required" .null (0, [])
        = .ok (-15, ["Requires ECOG 0–1 (KPS ~≥80)."])
    ∧ ruleKarnofsky "Karnofsky 70 required" .null (0, [])
        = .ok (-10, ["Requires KPS ≥70."]) := by
  refine ⟨missing_kps_penalized_missing_age_skipped.1 (some 18) (some 65) (7, ["r"]), ?_, ?_⟩
  · have := missing_kps_penalized_missing_age_skipped.2.2.1 "ECOG 0-1 required" (0, []) (by decide)
    simpa using this
  · have := missing_kps_penalized_missing_age_skipped.2.2.2 "Karnofsky 70 required" (0, []) (by decide)
    simpa using this

/-- C6, counterexample: `extract_row` renders the scalar phase "PHASE2" as the
    verbatim string "PHASE2", not the display form "Phase 2". -/
theorem extract_row_no_phase_formatting :
    rowField (extract_row (recWithPhases (.str "PHASE2"))) "phases" = some (.str "PHASE2")
    ∧ JVal.str "PHASE2" ≠ JVal.str "Phase 2" := by
  refine ⟨rfl, ?_⟩
  intro h
  have := JVal.str.inj h
  simp at this

/-- C6, amended: `extract_row` coerces a lone scalar phase to a one-element
    list and joins the phase codes verbatim with ", ": any scalar string code
    (slashes and case included) renders as itself, no display formatting or
    titlecasing is applied, and an empty phase list renders as the empty
    string. -/
theorem extract_row_phases_verbatim :
    (∀ p : String, rowField (extract_row (recWithPhases (.str p))) "phases" = some (.str p))
    ∧ rowField (extract_row (recWithPhases (.list []))) "phases" = some (.str "")
    ∧ rowField (extract_row (recWithPhases (.list [.str "PHASE1/2", .str "PHASE3"]))) "phases"
        = some (.str "PHASE1/2, PHASE3") :=
  ⟨fun p => rfl, rfl, rfl⟩

/-- C9, counterexample: `build_terms` does not deduplicate — a user keyword
    equal to a synonym appears twice in the result. -/
theorem build_terms_duplicate :
    build_terms "Glioblastoma" "GBM" = ["glioblastoma", "GBM", "glioblastoma multiforme", "GBM"]
    ∧ ¬ (build_terms "Glioblastoma" "GBM").Nodup := ⟨rfl, by decide⟩

/-- C9, amended: `build_terms` returns the synonym list of the category (or
    the broad fallback) followed by the user keywords comma-split, trimmed,
    with empties dropped and input order preserved — but the entries need not
    be pairwise distinct. -/
theorem build_terms_structure (d k : String) :
    build_terms d k = diagBase d ++ userKeywords k
    ∧ userKeywords k = ((splitComma k).map trimStr).filter (· != "")
    ∧ (∀ x ∈ userKeywords k, x ≠ "" ∧ trimStr x = x)
    ∧ List.Sublist (userKeywords k) ((splitComma k).map trimStr) := by
  refine ⟨rfl, rfl, ?_, List.filter_sublist _⟩
  intro x hx
  unfold userKeywords at hx
  rw [List.mem_filter] at hx
  obtain ⟨hmem, hne⟩ := hx
  obtain ⟨y, hy, rfl⟩ := List.mem_map.mp hmem
  exact ⟨by simpa using hne, trimStr_idem y⟩

/-- A well-formed study used by the network counterexamples. -/
def studyA : JVal := .dict
  [("protocolSection", .dict [("identificationModule", .dict [("nctId", .str "NCT1")])])]

/-- A network in which term "a" times out while every other term returns one
    valid page holding `studyA`. -/
def netC2 : Net := fun rq =>
  if rq.term = "a" then .timeoutErr
  else .okJson (.dict [("studies", .list [studyA])])

/-- A network on which every request fails with a non-2xx status. -/
def netHttpDown : Net := fun _ => .httpErr

theorem fetchLoop_all_http (net : Net) (statuses : List String) (ps mp : Nat) :
    ∀ (ts : List String) (fresh : Nat) (acc : List (Key × JVal)),
      (∀ u ∈ ts, ctgov_search_one net u statuses ps mp = .error .httpError) →
      fetchLoop net statuses ps mp ts fresh acc = .ok acc := by
  intro ts
  induction ts with
  | nil => intro fresh acc h; rfl
  | cons t ts ih =>
    intro fresh acc h
    unfold fetchLoop
    rw [h t (List.mem_cons_self t ts)]
    exact ih fresh acc (fun u hu => h u (List.mem_cons_of_mem t hu))

/-- C2, counterexample: a timeout on the first term aborts the whole fetch
    with an exception even though the second term alone succeeds — a single
    failing term is not swallowed unless it is an HTTP status error. -/
theorem fetch_all_terms_timeout_aborts :
    fetch_all_terms netC2 ["a", "b"] STATUSES 100 5 = .error .timeout
    ∧ ctgov_search_one netC2 "b" STATUSES 100 5 = .ok [studyA]
    ∧ fetch_all_terms netC2 ["b"] STATUSES 100 5 = .ok [studyA] := ⟨rfl, rfl, rfl⟩

/-- C2, amended: only a non-2xx HTTP response (`requests.HTTPError`) on a
    single search term is swallowed — that term contributes nothing and the
    remaining terms still contribute; a timeout or malformed JSON propagates
    and aborts the whole fetch; and when every term fails with an HTTP error
    the caller receives the empty list, not an exception. -/
theorem fetch_all_terms_http_error_skipped (net : Net) (t : String)
    (ts statuses : List String) (ps mp : Nat) :
    (ctgov_search_one net t statuses ps mp = .error .httpError →
      fetch_all_terms net (t :: ts) statuses ps mp = fetch_all_terms net ts statuses ps mp)
    ∧ ((∀ u ∈ t :: ts, ctgov_search_one net u statuses ps mp = .error .httpError) →
      fetch_all_terms net (t :: ts) statuses ps mp = .ok []) := by
  constructor
  · intro h
    unfold fetch_all_terms
    conv_lhs => rw [fetchLoop]
    rw [h]
  · intro h
    unfold fetch_all_terms
    rw [fetchLoop_all_http net statuses ps mp (t :: ts) 0 [] h]
    rfl

/-- Witness for C2 amended on the all-HTTP-down network. -/
theorem fetch_all_terms_http_error_skipped_witness :
    fetch_all_terms netHttpDown ["a", "b"] STATUSES 100 5
      = fetch_all_terms netHttpDown ["b"] STATUSES 100 5
    ∧ fetch_all_terms netHttpDown ["a", "b"] STATUSES 100 5 = .ok [] := by
  have h := fetch_all_terms_http_error_skipped netHttpDown "a" ["b"] STATUSES 100 5
  exact ⟨h.1 rfl, h.2 (fun u hu => rfl)⟩

/-! ## Shape conditions under which the normalizers are total -/

/-- Values `v` for which `v or ""` is a string (a string, or any falsy value). -/
def strOrFalsy (v : JVal) : Bool :=
  match v with
  | .str _ => true
  | v => !truthy v

/-- Values `v` for which `v or` a dict default yields a dict. -/
def dictOrFalsy (v : JVal) : Bool :=
  match v with
  | .dict _ => true
  | v => !truthy v

/-- Values an int comparison tolerates: None (guarded) or a number. -/
def numOrNull (v : JVal) : Bool := isNull v || (jNum v).isSome

/-- Is the value a string. -/
def isStrV : JVal → Bool
  | .str _ => true
  | _ => false

/-- The intake shapes on which `score_trial` cannot raise: the intake is a
    dict (or falsy), and its diagnosis, KPS and keywords fields — the ones the
    code compares, splits or feeds to the regex — have the expected types. -/
def wfIntake (intake : JVal) : Bool :=
  match pyOr intake (.dict []) with
  | .dict ixs =>
    strOrFalsy (lookupJ ixs "diagnosis")
    && numOrNull (lookupJ ixs "kps")
    && strOrFalsy (lookupJ ixs "keywords")
  | _ => false

/-- The record shapes on which `score_trial` cannot raise: the record and its
    protocolSection are dicts (or falsy); designModule and conditionsModule
    are dicts when present (None there is what makes `score_trial` raise);
    identificationModule is a dict or falsy; conditions entries and the brief
    title are strings or falsy. -/
def wfTrial (t : JVal) : Bool :=
  match pyOr t (.dict []) with
  | .dict txs =>
    match pyOr (lookupJ txs "protocolSection") (.dict []) with
    | .dict pxs =>
      (match lookupD pxs "designModule" (.dict []) with
       | .dict _ => true
       | _ => false)
      && (match lookupD pxs "conditionsModule" (.dict []) with
          | .dict cxs => (ensure_list (lookupJ cxs "conditions")).all strOrFalsy
          | _ => false)
      && (match pyOr (lookupD pxs "identificationModule" (.dict [])) (.dict []) with
          | .dict imxs => strOrFalsy (lookupD imxs "briefTitle" (.str ""))
          | _ => false)
    | _ => false
  | _ => false

theorem pyOr_str_of_strOrFalsy {v : JVal} (h : strOrFalsy v = true) :
    ∃ s, pyOr v (.str "") = .str s := by
  cases v with
  | str s =>
    by_cases hs : truthy (.str s) = true
    · exact ⟨s, by simp [pyOr, hs]⟩
    · exact ⟨"", by simp [pyOr, hs]⟩
  | null => exact ⟨"", rfl⟩
  | bool b => cases b with
    | false => exact ⟨"", rfl⟩
    | true => simp [strOrFalsy, truthy] at h
  | int n =>
    simp only [strOrFalsy, Bool.not_eq_true'] at h
    exact ⟨"", by simp [pyOr, h]⟩
  | list xs =>
    simp only [strOrFalsy, Bool.not_eq_true'] at h
    exact ⟨"", by simp [pyOr, h]⟩
  | dict xs =>
    simp only [strOrFalsy, Bool.not_eq_true'] at h
    exact ⟨"", by simp [pyOr, h]⟩

theorem mentions_ok {x : JVal} (h : strOrFalsy x = true) (s : String) :
    ∃ b, mentions x (.str s) = .ok b := by
  obtain ⟨u, hu⟩ := pyOr_str_of_strOrFalsy h
  exact ⟨mentionsStr u s, by simp [mentions, hu]⟩

theorem anyMentionsE_ok {x : JVal} (h : strOrFalsy x = true) :
    ∀ (terms : List JVal), (∀ v ∈ terms, isStrV v = true) →
      ∃ b, anyMentionsE x terms = .ok b := by
  intro terms
  induction terms with
  | nil => exact fun _ => ⟨false, rfl⟩
  | cons v vs ih =>
    intro hv
    have hvs : isStrV v = true := hv v (List.mem_cons_self v vs)
    cases v with
    | str s =>
      obtain ⟨b, hb⟩ := mentions_ok h s
      cases b with
      | true => exact ⟨true, by rw [anyMentionsE, hb]⟩
      | false =>
        obtain ⟨b2, hb2⟩ := ih (fun u hu => hv u (List.mem_cons_of_mem _ hu))
        exact ⟨b2, by rw [anyMentionsE, hb, hb2]⟩
    | null => simp [isStrV] at hvs
    | bool b => simp [isStrV] at hvs
    | int n => simp [isStrV] at hvs
    | list xs => simp [isStrV] at hvs
    | dict xs => simp [isStrV] at hvs

theorem condsAnyE_ok {terms : List JVal} (hterms : ∀ v ∈ terms, isStrV v = true) :
    ∀ (conds : List JVal), (∀ c ∈ conds, strOrFalsy c = true) →
      ∃ b, condsAnyE terms conds = .ok b := by
  intro conds
  induction conds with
  | nil => exact fun _ => ⟨false, rfl⟩
  | cons c cs ih =>
    intro hc
    obtain ⟨b, hb⟩ := anyMentionsE_ok (hc c (List.mem_cons_self c cs)) terms hterms
    cases b with
    | true => exact ⟨true, by rw [condsAnyE, hb]⟩
    | false =>
      obtain ⟨b2, hb2⟩ := ih (fun u hu => hc u (List.mem_cons_of_mem c hu))
      exact ⟨b2, by rw [condsAnyE, hb, hb2]⟩

theorem diagTermsFor_ok {draw : JVal} (h : strOrFalsy draw = true) :
    ∃ l, diagTermsFor (pyOr draw (.str "")) = .ok l ∧ ∀ v ∈ l, isStrV v = true := by
  obtain ⟨s, hs⟩ := pyOr_str_of_strOrFalsy h
  rw [hs]
  cases hk : diagKnown s with
  | some syns =>
    refine ⟨syns.map .str, by simp [diagTermsFor, hk], ?_⟩
    intro v hv
    obtain ⟨u, _, rfl⟩ := List.mem_map.mp hv
    rfl
  | none =>
    by_cases hc : (s != "" && s != "Other") = true
    · exact ⟨[.str s], by simp [diagTermsFor, hk, hc],
        by intro v hv; simp at hv; subst hv; rfl⟩
    · refine ⟨[.str "brain tumor", .str "CNS tumor", .str "spinal cord tumor"],
        by simp [diagTermsFor, hk, hc], ?_⟩
      intro v hv
      simp at hv
      rcases hv with rfl | rfl | rfl <;> rfl

theorem ruleDiag_ok {conds : List JVal} {title : JVal} {terms : List JVal}
    (hconds : ∀ c ∈ conds, strOrFalsy c = true) (htitle : strOrFalsy title = true)
    (hterms : ∀ v ∈ terms, isStrV v = true) (dl : JVal) (acc : Int × List String) :
    ∃ acc2, ruleDiag conds title terms dl acc = .ok acc2 := by
  obtain ⟨b, hb⟩ := condsAnyE_ok hterms conds hconds
  cases b with
  | true => exact ⟨_, by rw [ruleDiag, hb]⟩
  | false =>
    obtain ⟨b2, hb2⟩ := anyMentionsE_ok htitle terms hterms
    cases b2 with
    | true => exact ⟨_, by rw [ruleDiag, hb, hb2]⟩
    | false => exact ⟨acc, by rw [ruleDiag, hb, hb2]⟩

theorem ruleECOG_ok {kps : JVal} (h : numOrNull kps = true) (crit : String)
    (acc : Int × List String) : ∃ acc2, ruleECOG crit kps acc = .ok acc2 := by
  unfold ruleECOG
  by_cases hm : mentionsStr crit "ECOG 0-1" = true
  · rw [if_pos hm]
    by_cases hn : isNull kps = true
    · rw [if_pos hn]; exact ⟨_, rfl⟩
    · rw [if_neg hn]
      unfold numOrNull at h
      rw [Bool.or_eq_true] at h
      rcases h with h | h
      · exact absurd h hn
      · obtain ⟨m, hm2⟩ := Option.isSome_iff_exists.mp h
        refine ⟨if m < 80 then (acc.1 - 15, acc.2 ++ ["Requires ECOG 0–1 (KPS ~≥80)."]) else acc, ?_⟩
        unfold pyLtI
        rw [hm2]
        by_cases hlt : m < 80
        · simp [hlt]
        · simp [hlt]
  · rw [if_neg hm]; exact ⟨acc, rfl⟩

theorem ruleKarnofsky_ok {kps : JVal} (h : numOrNull kps = true) (crit : String)
    (acc : Int × List String) : ∃ acc2, ruleKarnofsky crit kps acc = .ok acc2 := by
  unfold ruleKarnofsky
  by_cases hm : mentionsStr crit "Karnofsky" = true
  · rw [if_pos hm]
    by_cases hn : isNull kps = true
    · rw [if_pos hn]; exact ⟨_, rfl⟩
    · rw [if_neg hn]
      unfold numOrNull at h
      rw [Bool.or_eq_true] at h
      rcases h with h | h
      · exact absurd h hn
      · obtain ⟨m, hm2⟩ := Option.isSome_iff_exists.mp h
        refine ⟨if m < 70 then (acc.1 - 10, acc.2 ++ ["Requires KPS ≥70."]) else acc, ?_⟩
        unfold pyLtI
        rw [hm2]
        by_cases hlt : m < 70
        · simp [hlt]
        · simp [hlt]
  · rw [if_neg hm]; exact ⟨acc, rfl⟩

theorem ruleSetting_ok {title : JVal} (htitle : strOrFalsy title = true)
    (setting : JVal) (crit : String) (s : Int) :
    ∃ s2, ruleSetting setting crit title s = .ok s2 := by
  unfold ruleSetting
  by_cases he : pyEq setting (.str "Newly diagnosed") = true
  · rw [if_pos he]
    by_cases hm : mentionsStr crit "newly diagnosed" = true
    · rw [if_pos hm]; exact ⟨_, rfl⟩
    · rw [if_neg hm]
      obtain ⟨b, hb⟩ := mentions_ok htitle "adjuvant"
      rw [hb]
      cases b
      · exact ⟨_, rfl⟩
      · exact ⟨_, rfl⟩
  · rw [if_neg he]; exact ⟨_, rfl⟩

theorem kwLoop_ok {title : JVal} (htitle : strOrFalsy title = true) (crit : String) :
    ∀ (kws : List String) (s : Int), ∃ s2, kwLoop title crit kws s = .ok s2 := by
  intro kws
  induction kws with
  | nil => exact fun s => ⟨s, rfl⟩
  | cons kw rest ih =>
    intro s
    obtain ⟨b, hb⟩ := mentions_ok htitle kw
    cases b with
    | true =>
      obtain ⟨s2, hs2⟩ := ih (s + 3)
      exact ⟨s2, by rw [kwLoop, hb, hs2]⟩
    | false =>
      by_cases hm : mentionsStr crit kw = true
      · obtain ⟨s2, hs2⟩ := ih (s + 3)
        exact ⟨s2, by rw [kwLoop, hb, if_pos hm, hs2]⟩
      · obtain ⟨s2, hs2⟩ := ih s
        exact ⟨s2, by rw [kwLoop, hb, if_neg hm, hs2]⟩

theorem ruleKeywords_ok {kraw title : JVal} (hk : strOrFalsy kraw = true)
    (htitle : strOrFalsy title = true) (crit : String) (s : Int) :
    ∃ s2, ruleKeywords (pyOr kraw (.str "")) title crit s = .ok s2 := by
  obtain ⟨ks, hks⟩ := pyOr_str_of_strOrFalsy hk
  have hor : pyOr (pyOr kraw (.str "")) (.str "") = .str ks := by
    rw [hks]
    by_cases h0 : truthy (.str ks) = true
    · simp [pyOr, h0]
    · simp only [Bool.not_eq_true] at h0
      simp only [truthy, bne_eq_false_iff_eq] at h0
      subst h0
      rfl
  unfold ruleKeywords
  rw [hor]
  exact kwLoop_ok htitle crit (userKeywords ks) s

theorem scoreRaw_total (t intake : JVal) (ht : wfTrial t = true) (hi : wfIntake intake = true) :
    ∃ v, scoreRaw t intake = .ok v := by
  unfold wfIntake at hi
  unfold wfTrial at ht
  unfold scoreRaw
  generalize hIx : pyOr intake (.dict []) = iv
  rw [hIx] at hi
  cases iv with
  | null => simp at hi
  | bool b => simp at hi
  | int n => simp at hi
  | str s => simp at hi
  | list xs => simp at hi
  | dict ixs =>
    dsimp only at hi ⊢
    rw [Bool.and_eq_true, Bool.and_eq_true] at hi
    obtain ⟨⟨hdiag, hkps⟩, hkw⟩ := hi
    obtain ⟨terms, hterms, htermsStr⟩ := diagTermsFor_ok hdiag
    rw [hterms]
    generalize hT : pyOr t (.dict []) = tv
    rw [hT] at ht
    cases tv with
    | null => simp at ht
    | bool b => simp at ht
    | int n => simp at ht
    | str s => simp at ht
    | list xs => simp at ht
    | dict txs =>
      dsimp only at ht ⊢
      generalize hP : pyOr (lookupJ txs "protocolSection") (.dict []) = pv
      rw [hP] at ht
      cases pv with
      | null => simp at ht
      | bool b => simp at ht
      | int n => simp at ht
      | str s => simp at ht
      | list xs => simp at ht
      | dict pxs =>
        dsimp only at ht ⊢
        rw [Bool.and_eq_true, Bool.and_eq_true] at ht
        obtain ⟨⟨htD, htC⟩, htI⟩ := ht
        generalize hDM : lookupD pxs "designModule" (.dict []) = dmv
        rw [hDM] at htD
        cases dmv with
        | null => simp at htD
        | bool b => simp at htD
        | int n => simp at htD
        | str s => simp at htD
        | list xs => simp at htD
        | dict dxs =>
          dsimp only at htD ⊢
          generalize hCM : lookupD pxs "conditionsModule" (.dict []) = cmv
          rw [hCM] at htC
          cases cmv with
          | null => simp at htC
          | bool b => simp at htC
          | int n => simp at htC
          | str s => simp at htC
          | list xs => simp at htC
          | dict cxs =>
            dsimp only at htC ⊢
            generalize hIM : pyOr (lookupD pxs "identificationModule" (.dict [])) (.dict []) = imv
            rw [hIM] at htI
            cases imv with
            | null => simp at htI
            | bool b => simp at htI
            | int n => simp at htI
            | str s => simp at htI
            | list xs => simp at htI
            | dict imxs =>
              dsimp only at htI ⊢
              have hconds : ∀ c ∈ ensure_list (lookupJ cxs "conditions"), strOrFalsy c = true :=
                List.all_eq_true.mp htC
              obtain ⟨acc1, h1⟩ := ruleDiag_ok hconds htI htermsStr
                (pyOr (lookupJ ixs "diagnosis") (.str "")) (0, [])
              rw [h1]
              dsimp only
              obtain ⟨acc4, h4⟩ := ruleECOG_ok hkps
                (extractCrit (lookupJ pxs "eligibilityModule")).1
                (ruleAge (extractCrit (lookupJ pxs "eligibilityModule")).2.1
                  (extractCrit (lookupJ pxs "eligibilityModule")).2.2 (lookupJ ixs "age")
                  (phaseBonus
                    ((ensure_list (lookupJ dxs "phases")).map fun p => upperStr (pyStr p)) acc1.1,
                    acc1.2))
              rw [h4]
              dsimp only
              obtain ⟨acc5, h5⟩ := ruleKarnofsky_ok hkps
                (extractCrit (lookupJ pxs "eligibilityModule")).1 acc4
              rw [h5]
              dsimp only
              obtain ⟨s7, h7⟩ := ruleSetting_ok htI
                (pyOr (lookupJ ixs "setting") (.str ""))
                (extractCrit (lookupJ pxs "eligibilityModule")).1
                (ruleBev (truthy (lookupD ixs "prior_bev" (.bool false)))
                  (extractCrit (lookupJ pxs "eligibilityModule")).1 acc5).1
              rw [h7]
              dsimp only
              obtain ⟨s8, h8⟩ := ruleKeywords_ok hkw htI
                (extractCrit (lookupJ pxs "eligibilityModule")).1 s7
              rw [h8]
              exact ⟨_, rfl⟩

/-- The leadSponsor shape `extract_row` tolerates: when the `or`-defaulted
    leadSponsor is a dict its name must be a string or falsy; a non-dict is
    fine (the isinstance guard skips it). -/
def wfSponsor (slm : List (String × JVal)) : Bool :=
  match pyOr (lookupJ slm "leadSponsor") (.dict []) with
  | .dict lxs => strOrFalsy (lookupJ lxs "name")
  | _ => true

/-- The locations shape `extract_row` tolerates: an empty list, or a first
    entry that is a dict with string-or-falsy city and country. -/
def wfLocs (locs : List JVal) : Bool :=
  match locs with
  | [] => true
  | first :: _ =>
    match first with
    | .dict fxs =>
      strOrFalsy (lookupJ fxs "locationCity") && strOrFalsy (lookupJ fxs "locationCountry")
    | _ => false

/-- The record shapes on which `extract_row` cannot raise: the record and each
    consulted module are dicts (or falsy), the title/nct/status fields are
    strings or falsy, the phase and condition entries are strings, and the
    sponsor and first location have the expected shapes. -/
def wfRow (study : JVal) : Bool :=
  match study with
  | .dict sxs =>
    match pyOr (lookupJ sxs "protocolSection") (.dict []) with
    | .dict pxs =>
      (match pyOr (lookupJ pxs "identificationModule") (.dict []) with
       | .dict idm =>
         strOrFalsy (lookupJ idm "officialTitle") && strOrFalsy (lookupJ idm "briefTitle")
           && strOrFalsy (lookupJ idm "nctId")
       | _ => false)
      && (match pyOr (lookupJ pxs "statusModule") (.dict []) with
          | .dict scm => strOrFalsy (lookupJ scm "overallStatus")
          | _ => false)
      && (match pyOr (lookupJ pxs "designModule") (.dict []) with
          | .dict dsm => (ensure_list (lookupJ dsm "phases")).all isStrV
          | _ => false)
      && (match pyOr (lookupJ pxs "conditionsModule") (.dict []) with
          | .dict cdnm => (ensure_list (lookupJ cdnm "conditions")).all isStrV
          | _ => false)
      && (match pyOr (lookupJ pxs "sponsorCollaboratorsModule") (.dict []) with
          | .dict slm => wfSponsor slm
          | _ => false)
      && (match pyOr (lookupJ pxs "contactsLocationsModule") (.dict []) with
          | .dict clm => wfLocs (ensure_list (lookupJ clm "locations"))
          | _ => false)
    | _ => false
  | _ => false

theorem strOrFalsy_pyOr {a b : JVal} (ha : strOrFalsy a = true) (hb : strOrFalsy b = true) :
    strOrFalsy (pyOr a b) = true := by
  unfold pyOr
  by_cases h : truthy a = true <;> simp [h, ha, hb]

theorem pyStripOr_ok {v : JVal} (h : strOrFalsy v = true) :
    ∃ s, pyStrip (pyOr v (.str "")) = .ok s := by
  obtain ⟨u, hu⟩ := pyOr_str_of_strOrFalsy h
  exact ⟨trimStr u, by rw [hu]; rfl⟩

theorem strList_ok : ∀ {l : List JVal}, (∀ v ∈ l, isStrV v = true) →
    ∃ ss, strList l = .ok ss := by
  intro l
  induction l with
  | nil => exact fun _ => ⟨[], rfl⟩
  | cons v vs ih =>
    intro hv
    have hvs : isStrV v = true := hv v (List.mem_cons_self v vs)
    cases v with
    | str s =>
      obtain ⟨ss, hss⟩ := ih (fun u hu => hv u (List.mem_cons_of_mem _ hu))
      exact ⟨s :: ss, by rw [strList, hss]⟩
    | null => simp [isStrV] at hvs
    | bool b => simp [isStrV] at hvs
    | int n => simp [isStrV] at hvs
    | list xs => simp [isStrV] at hvs
    | dict xs => simp [isStrV] at hvs

theorem pyJoinVals_ok {l : List JVal} (h : ∀ v ∈ l, isStrV v = true) (sep : String) :
    ∃ s, pyJoinVals sep l = .ok s := by
  obtain ⟨ss, hss⟩ := strList_ok h
  exact ⟨joinSep sep ss, by rw [pyJoinVals, hss]⟩

theorem sponsorOf_ok {slm : List (String × JVal)} (h : wfSponsor slm = true) :
    ∃ s, sponsorOf slm = .ok s := by
  unfold wfSponsor at h
  unfold sponsorOf
  generalize hL : pyOr (lookupJ slm "leadSponsor") (.dict []) = lv
  rw [hL] at h
  cases lv with
  | dict lxs => exact pyStripOr_ok h
  | null => exact ⟨"", rfl⟩
  | bool b => exact ⟨"", rfl⟩
  | int n => exact ⟨"", rfl⟩
  | str s => exact ⟨"", rfl⟩
  | list xs => exact ⟨"", rfl⟩

theorem cityCountryOf_ok {locs : List JVal} (h : wfLocs locs = true) :
    ∃ s, cityCountryOf locs = .ok s := by
  unfold wfLocs at h
  cases locs with
  | nil => exact ⟨"", rfl⟩
  | cons first rest =>
    cases first with
    | dict fxs =>
      rw [Bool.and_eq_true] at h
      obtain ⟨hc, hn⟩ := h
      obtain ⟨city, hcity⟩ := pyStripOr_ok hc
      obtain ⟨country, hcountry⟩ := pyStripOr_ok hn
      unfold cityCountryOf
      dsimp only
      have hg : pyGet (JVal.dict fxs) "locationCity" = .ok (lookupJ fxs "locationCity") := rfl
      have hg2 : pyGet (JVal.dict fxs) "locationCountry" = .ok (lookupJ fxs "locationCountry") := rfl
      rw [hg]
      dsimp only
      rw [hcity]
      dsimp only
      rw [hg2]
      dsimp only
      rw [hcountry]
      exact ⟨_, rfl⟩
    | null => simp at h
    | bool b => simp at h
    | int n => simp at h
    | str s => simp at h
    | list xs => simp at h

theorem extract_row_total (study : JVal) (h : wfRow study = true) :
    ∃ r, extract_row study = .ok r := by
  unfold wfRow at h
  unfold extract_row
  cases study with
  | null => simp at h
  | bool b => simp at h
  | int n => simp at h
  | str s => simp at h
  | list xs => simp at h
  | dict sxs =>
    dsimp only [asDict] at h ⊢
    generalize hP : pyOr (lookupJ sxs "protocolSection") (.dict []) = pv
    rw [hP] at h
    cases pv with
    | null => simp at h
    | bool b => simp at h
    | int n => simp at h
    | str s => simp at h
    | list xs => simp at h
    | dict pxs =>
      dsimp only [asDict] at h ⊢
      rw [Bool.and_eq_true, Bool.and_eq_true, Bool.and_eq_true, Bool.and_eq_true,
        Bool.and_eq_true] at h
      obtain ⟨⟨⟨⟨⟨hIdm, hScm⟩, hDsm⟩, hCdnm⟩, hSlm⟩, hClm⟩ := h
      generalize hI : pyOr (lookupJ pxs "identificationModule") (.dict []) = imv
      rw [hI] at hIdm
      cases imv with
      | null => simp at hIdm
      | bool b => simp at hIdm
      | int n => simp at hIdm
      | str s => simp at hIdm
      | list xs => simp at hIdm
      | dict idm =>
        dsimp only [asDict] at hIdm ⊢
        rw [Bool.and_eq_true, Bool.and_eq_true] at hIdm
        obtain ⟨⟨hOff, hBrief⟩, hNct⟩ := hIdm
        obtain ⟨title, htitle⟩ := pyStripOr_ok (strOrFalsy_pyOr hOff hBrief)
        rw [htitle]
        dsimp only
        obtain ⟨nct, hnct⟩ := pyStripOr_ok hNct
        rw [hnct]
        dsimp only
        generalize hS : pyOr (lookupJ pxs "statusModule") (.dict []) = scv
        rw [hS] at hScm
        cases scv with
        | null => simp at hScm
        | bool b => simp at hScm
        | int n => simp at hScm
        | str s => simp at hScm
        | list xs => simp at hScm
        | dict scm =>
          dsimp only [asDict] at hScm ⊢
          obtain ⟨status_raw, hstatus⟩ := pyStripOr_ok hScm
          rw [hstatus]
          dsimp only
          generalize hD : pyOr (lookupJ pxs "designModule") (.dict []) = dsv
          rw [hD] at hDsm
          cases dsv with
          | null => simp at hDsm
          | bool b => simp at hDsm
          | int n => simp at hDsm
          | str s => simp at hDsm
          | list xs => simp at hDsm
          | dict dsm =>
            dsimp only [asDict] at hDsm ⊢
            obtain ⟨phases, hphases⟩ :=
              pyJoinVals_ok (List.all_eq_true.mp hDsm) ", "
            rw [hphases]
            dsimp only
            generalize hC : pyOr (lookupJ pxs "conditionsModule") (.dict []) = cdv
            rw [hC] at hCdnm
            cases cdv with
            | null => simp at hCdnm
            | bool b => simp at hCdnm
            | int n => simp at hCdnm
            | str s => simp at hCdnm
            | list xs => simp at hCdnm
            | dict cdnm =>
              dsimp only [asDict] at hCdnm ⊢
              obtain ⟨conds, hconds⟩ :=
                pyJoinVals_ok (List.all_eq_true.mp hCdnm) ", "
              rw [hconds]
              dsimp only
              generalize hSl : pyOr (lookupJ pxs "sponsorCollaboratorsModule") (.dict []) = slv
              rw [hSl] at hSlm
              cases slv with
              | null => simp at hSlm
              | bool b => simp at hSlm
              | int n => simp at hSlm
              | str s => simp at hSlm
              | list xs => simp at hSlm
              | dict slm =>
                dsimp only [asDict] at hSlm ⊢
                obtain ⟨sponsor, hsponsor⟩ := sponsorOf_ok hSlm
                rw [hsponsor]
                dsimp only
                generalize hCl : pyOr (lookupJ pxs "contactsLocationsModule") (.dict []) = clv
                rw [hCl] at hClm
                cases clv with
                | null => simp at hClm
                | bool b => simp at hClm
                | int n => simp at hClm
                | str s => simp at hClm
                | list xs => simp at hClm
                | dict clm =>
                  dsimp only [asDict] at hClm ⊢
                  obtain ⟨cc, hcc⟩ := cityCountryOf_ok hClm
                  rw [hcc]
                  exact ⟨_, rfl⟩

/-- C1, counterexample: the normalizers are not total on malformed records —
    `score_trial` raises AttributeError when designModule is present but null
    (wrong-typed nested sub-field), and `extract_row` raises when the first
    location entry is a string rather than an object. -/
theorem normalizers_raise_on_malformed :
    score_trial recNullDesign (.dict []) = .error .attributeError
    ∧ extract_row recStrLocations = .error .attributeError := ⟨rfl, rfl⟩

/-- C1, amended: `extract_row` and `score_trial` return a value on every
    record whose consulted fields have the shapes the code expects (absent or
    null modules in the guarded positions, string criteria in any of the
    tolerated forms, scalar phases, and so on, as captured by `wfTrial`,
    `wfIntake` and `wfRow`); outside those shapes they can raise — designModule
    or conditionsModule bound to null, or a wrong-typed location entry, raises
    AttributeError, which the per-record try/except of every caller catches. -/
theorem normalizers_total_on_wellshaped (t intake study : JVal) :
    (wfTrial t = true → wfIntake intake = true → ∃ v, score_trial t intake = .ok v)
    ∧ (wfRow study = true → ∃ r, extract_row study = .ok r) := by
  constructor
  · intro ht hi
    obtain ⟨⟨s, reasons⟩, hv⟩ := scoreRaw_total t intake ht hi
    exact ⟨(max 0 (min 100 s), reasons), by rw [score_trial, hv]⟩
  · exact extract_row_total study

/-- Witness for C1 amended: the well-shaped example-scenario inputs and the
    empty record. -/
theorem normalizers_total_on_wellshaped_witness :
    (∃ v, score_trial rec4 intake4 = .ok v) ∧ (∃ r, extract_row (.dict []) = .ok r) :=
  ⟨(normalizers_total_on_wellshaped rec4 intake4 (.dict [])).1 (by decide) (by decide),
   (normalizers_total_on_wellshaped rec4 intake4 (.dict [])).2 (by decide)⟩

/-! ## Stability of the final sort (uk_sources.py line 78) -/

/-- Rows whose computed sort key equals `v` (rows of one score class). -/
def keyIs (v : Int) (r : JVal) : Bool :=
  match rowKeyOf r with
  | .ok k => k == v
  | .error _ => false

theorem keyRows_map_snd : ∀ {rows keyed}, keyRows rows = .ok keyed →
    keyed.map Prod.snd = rows := by
  intro rows
  induction rows with
  | nil => intro keyed h; cases h; rfl
  | cons r rs ih =>
    intro keyed h
    rw [keyRows] at h
    cases hk : rowKeyOf r with
    | error e => rw [hk] at h; cases h
    | ok k =>
      rw [hk] at h
      cases hr : keyRows rs with
      | error e => rw [hr] at h; cases h
      | ok rest =>
        rw [hr] at h
        cases h
        simp [ih hr]

theorem keyRows_inv : ∀ {rows keyed}, keyRows rows = .ok keyed →
    ∀ p ∈ keyed, rowKeyOf p.2 = .ok p.1 := by
  intro rows
  induction rows with
  | nil => intro keyed h; cases h; intro p hp; cases hp
  | cons r rs ih =>
    intro keyed h
    rw [keyRows] at h
    cases hk : rowKeyOf r with
    | error e => rw [hk] at h; cases h
    | ok k =>
      rw [hk] at h
      cases hr : keyRows rs with
      | error e => rw [hr] at h; cases h
      | ok rest =>
        rw [hr] at h
        cases h
        intro p hp
        rcases List.mem_cons.mp hp with rfl | hp2
        · exact hk
        · exact ih hr p hp2

theorem mem_insSorted {le : α → α → Bool} {x a : α} : ∀ {l : List α},
    a ∈ insSorted le x l → a = x ∨ a ∈ l := by
  intro l
  induction l with
  | nil => intro h; rcases List.mem_singleton.mp h with rfl; exact Or.inl rfl
  | cons y ys ih =>
    intro h
    rw [insSorted] at h
    by_cases hle : le x y = true
    · rw [if_pos hle] at h
      rcases List.mem_cons.mp h with rfl | h2
      · exact Or.inl rfl
      · exact Or.inr h2
    · rw [if_neg hle] at h
      rcases List.mem_cons.mp h with rfl | h2
      · exact Or.inr (List.mem_cons_self _ _)
      · rcases ih h2 with rfl | h3
        · exact Or.inl rfl
        · exact Or.inr (List.mem_cons_of_mem _ h3)

theorem mem_isort {le : α → α → Bool} {a : α} : ∀ {l : List α}, a ∈ isort le l → a ∈ l := by
  intro l
  induction l with
  | nil => intro h; cases h
  | cons y ys ih =>
    intro h
    rw [isort] at h
    rcases mem_insSorted h with rfl | h2
    · exact List.mem_cons_self _ _
    · exact List.mem_cons_of_mem _ (ih h2)

theorem filter_insSorted (v : Int) (x : Int × JVal) : ∀ (l : List (Int × JVal)),
    (insSorted (fun a b => a.1 ≤ b.1) x l).filter (fun p => p.1 == v)
      = if x.1 == v then x :: l.filter (fun p => p.1 == v)
        else l.filter (fun p => p.1 == v) := by
  intro l
  induction l with
  | nil =>
    rw [insSorted]
    by_cases hx : x.1 = v <;> simp [hx, List.filter_cons]
  | cons y ys ih =>
    rw [insSorted]
    by_cases hle : (decide (x.1 ≤ y.1)) = true
    · rw [if_pos hle]
      by_cases hx : x.1 = v <;> simp [hx, List.filter_cons]
    · rw [if_neg hle]
      rw [decide_eq_true_eq] at hle
      push_neg at hle
      by_cases hxv : x.1 = v
      · have hyv : y.1 ≠ v := by omega
        simp [List.filter_cons, ih, hxv, hyv]
      · by_cases hyv : y.1 = v <;> simp [List.filter_cons, ih, hxv, hyv]

theorem filter_isort (v : Int) : ∀ (l : List (Int × JVal)),
    (isort (fun a b => a.1 ≤ b.1) l).filter (fun p => p.1 == v)
      = l.filter (fun p => p.1 == v) := by
  intro l
  induction l with
  | nil => rfl
  | cons x xs ih =>
    rw [isort, filter_insSorted, List.filter_cons, ih]

theorem filter_map_snd (v : Int) : ∀ (l : List (Int × JVal)),
    (∀ p ∈ l, rowKeyOf p.2 = .ok p.1) →
    (l.map Prod.snd).filter (keyIs v) = (l.filter (fun p => p.1 == v)).map Prod.snd := by
  intro l
  induction l with
  | nil => intro _; rfl
  | cons p ps ih =>
    intro hp
    have hkey : rowKeyOf p.2 = .ok p.1 := hp p (List.mem_cons_self _ _)
    have hk : keyIs v p.2 = (p.1 == v) := by rw [keyIs, hkey]
    rw [List.map_cons, List.filter_cons, List.filter_cons, hk,
      ih (fun q hq => hp q (List.mem_cons_of_mem _ hq))]
    by_cases hx : (p.1 == v) = true <;> simp [hx]

/-- C8: the final sort of the aggregator is stable on ties — for every score
    class, the rows of that class appear in the sorted output in exactly the
    order they had in the merged deduplicated input. -/
theorem sortRows_stable (rows out : List JVal) (h : sortRows rows = .ok out) (v : Int) :
    out.filter (keyIs v) = rows.filter (keyIs v) := by
  unfold sortRows at h
  cases hk : keyRows rows with
  | error e => rw [hk] at h; cases h
  | ok keyed =>
    rw [hk] at h
    cases h
    have hinv : ∀ p ∈ isort (fun a b : Int × JVal => a.1 ≤ b.1) keyed,
        rowKeyOf p.2 = .ok p.1 :=
      fun p hp => keyRows_inv hk p (mem_isort hp)
    rw [filter_map_snd v _ hinv, filter_isort,
      ← filter_map_snd v _ (keyRows_inv hk), keyRows_map_snd hk]

/-- A row with the given score and title, for the stability witness. -/
def rowS (n : Int) (t : String) : JVal := .dict [("title", .str t), ("score", .int n)]

/-- Witness for C8 on two tied rows: their input order survives the sort. -/
theorem sortRows_stable_witness :
    [rowS 5 "a", rowS 5 "c"].filter (keyIs (-5))
      = [rowS 5 "a", rowS 5 "c"].filter (keyIs (-5)) :=
  sortRows_stable [rowS 5 "a", rowS 5 "c"] [rowS 5 "a", rowS 5 "c"] rfl (-5)

/-! ## The UK filter invariant (uk_sources.py lines 43-65) -/

theorem findVal_setAssoc_self (k : String) (v : JVal) :
    ∀ (xs : List (String × JVal)), findVal (setAssoc xs k v) k = some v := by
  intro xs
  induction xs with
  | nil => simp [setAssoc, findVal]
  | cons p rest ih =>
    obtain ⟨k2, v2⟩ := p
    rw [setAssoc]
    by_cases h : k2 = k
    · rw [if_pos h]
      simp [findVal]
    · rw [if_neg h]
      rw [findVal, if_neg h]
      exact ih

theorem findVal_setAssoc_ne {k k2 : String} (h : k2 ≠ k) (v : JVal) :
    ∀ (xs : List (String × JVal)), findVal (setAssoc xs k2 v) k = findVal xs k := by
  intro xs
  induction xs with
  | nil => simp [setAssoc, findVal, h]
  | cons p rest ih =>
    obtain ⟨k3, v3⟩ := p
    rw [setAssoc]
    by_cases h3 : k3 = k2
    · subst h3
      rw [if_pos rfl]
      rw [findVal, findVal, if_neg h, if_neg h]
    · rw [if_neg h3]
      rw [findVal, findVal]
      by_cases h4 : k3 = k
      · rw [if_pos h4, if_pos h4]
      · rw [if_neg h4, if_neg h4]
        exact ih

theorem tryRow_some (intake s r : JVal) (h : tryRow intake s = .ok (some r)) :
    ∃ L ls site, ukLocsOf s = .ok (L :: ls) ∧ mkSite L = .ok site
      ∧ rowField (.ok r) "site" = some (.str site) := by
  rw [tryRow] at h
  cases hu : ukLocsOf s with
  | error e => rw [hu] at h; cases h
  | ok locs =>
    rw [hu] at h
    cases locs with
    | nil => simp at h
    | cons L ls =>
      dsimp only at h
      cases hsc : score_trial s intake with
      | error e => rw [hsc] at h; cases h
      | ok p =>
        obtain ⟨sc, reasons⟩ := p
        rw [hsc] at h
        dsimp only at h
        cases hb : extract_row s with
        | error e => rw [hb] at h; cases h
        | ok base =>
          rw [hb] at h
          dsimp only at h
          cases hms : mkSite L with
          | error e => rw [hms] at h; cases h
          | ok site =>
            rw [hms] at h
            dsimp only at h
            cases base with
            | dict bxs =>
              dsimp only [pySetItem] at h
              cases hn : pyGet (JVal.dict (setAssoc (setAssoc (setAssoc bxs "site" (.str site))
                  "score" (.int sc)) "reasons" (.str (joinSep "; " reasons)))) "nct" with
              | error e => rw [hn] at h; cases h
              | ok nv =>
                rw [hn] at h
                dsimp only at h
                have hr : r = .dict (setAssoc (setAssoc (setAssoc (setAssoc bxs "site" (.str site))
                    "score" (.int sc)) "reasons" (.str (joinSep "; " reasons))) "url"
                    (.str (if truthy nv
                           then "https://clinicaltrials.gov/study/" ++ pyStr nv else ""))) := by
                  cases h
                  rfl
                refine ⟨L, ls, site, rfl, hms, ?_⟩
                rw [hr]
                rw [rowField]
                rw [findVal_setAssoc_ne (by decide) _ _,
                  findVal_setAssoc_ne (by decide) _ _,
                  findVal_setAssoc_ne (by decide) _ _,
                  findVal_setAssoc_self]
            | null => dsimp only [pySetItem] at h; cases h
            | bool b => dsimp only [pySetItem] at h; cases h
            | int n => dsimp only [pySetItem] at h; cases h
            | str s2 => dsimp only [pySetItem] at h; cases h
            | list xs => dsimp only [pySetItem] at h; cases h

theorem processAll_mem (intake : JVal) : ∀ (ss : List JVal) (r : JVal),
    r ∈ (processAll intake ss).1 → ∃ s ∈ ss, tryRow intake s = .ok (some r) := by
  intro ss
  induction ss with
  | nil => intro r h; cases h
  | cons s rest ih =>
    intro r h
    rw [processAll] at h
    cases ht : tryRow intake s with
    | error e =>
      rw [ht] at h
      obtain ⟨s2, hs2, h2⟩ := ih r h
      exact ⟨s2, List.mem_cons_of_mem _ hs2, h2⟩
    | ok o =>
      rw [ht] at h
      cases o with
      | none =>
        obtain ⟨s2, hs2, h2⟩ := ih r h
        exact ⟨s2, List.mem_cons_of_mem _ hs2, h2⟩
      | some r0 =>
        dsimp only at h
        rcases List.mem_cons.mp h with rfl | h2
        · exact ⟨s, List.mem_cons_self _ _, ht⟩
        · obtain ⟨s2, hs2, h3⟩ := ih r h2
          exact ⟨s2, List.mem_cons_of_mem _ hs2, h3⟩

theorem dedupRows_mem : ∀ {rows : List JVal} {seen : List String} {ded : List JVal},
    dedupRows rows seen = .ok ded → ∀ r ∈ ded, r ∈ rows := by
  intro rows
  induction rows with
  | nil => intro seen ded h r hr; cases h; cases hr
  | cons x xs ih =>
    intro seen ded h r hr
    rw [dedupRows] at h
    cases hk : normalize_key x with
    | error e => rw [hk] at h; cases h
    | ok k =>
      rw [hk] at h
      dsimp only at h
      by_cases hmem : seen.contains k = true
      · rw [if_pos hmem] at h
        exact List.mem_cons_of_mem _ (ih h r hr)
      · rw [if_neg hmem] at h
        cases hrest : dedupRows xs (k :: seen) with
        | error e => rw [hrest] at h; cases h
        | ok rest =>
          rw [hrest] at h
          cases h
          rcases List.mem_cons.mp hr with rfl | h2
          · exact List.mem_cons_self _ _
          · exact List.mem_cons_of_mem _ (ih hrest r h2)

theorem sortRows_mem {rows out : List JVal} (h : sortRows rows = .ok out) :
    ∀ r ∈ out, r ∈ rows := by
  unfold sortRows at h
  cases hk : keyRows rows with
  | error e => rw [hk] at h; cases h
  | ok keyed =>
    rw [hk] at h
    cases h
    intro r hr
    obtain ⟨p, hp, rfl⟩ := List.mem_map.mp hr
    have hmem : p ∈ keyed := mem_isort hp
    rw [← keyRows_map_snd hk]
    exact List.mem_map_of_mem Prod.snd hmem

/-- C10: every row returned by `fetch_uk_trials` comes from a fetched record
    with at least one site whose country contains "united kingdom"
    case-insensitively — records with no such site never produce a row, with
    no flag to disable the filter — and the site string of the row is built
    from the first matching UK site (facility, city, country). -/
theorem fetch_uk_trials_uk_only (net : Net) (d k : String) (intake : JVal) (b : Bool)
    (studies out : List JVal) (tot sk : Nat)
    (hstudies : fetch_all_terms net (build_terms d k) STATUSES 100 5 = .ok studies)
    (h : fetch_uk_trials net d k intake b = .ok (out, tot, sk)) :
    ∀ r ∈ out, ∃ s ∈ studies, ∃ L ls site, ukLocsOf s = .ok (L :: ls)
      ∧ mkSite L = .ok site
      ∧ rowField (.ok r) "site" = some (.str site) := by
  intro r hr
  rw [fetch_uk_trials.eq_def] at h
  cases b with
  | false =>
    dsimp only at h
    cases h
    cases hr
  | true =>
    dsimp only at h
    rw [hstudies] at h
    dsimp only at h
    cases hd : dedupRows (processAll intake studies).1 [] with
    | error e => rw [hd] at h; cases h
    | ok ded =>
      rw [hd] at h
      dsimp only at h
      cases hs : sortRows ded with
      | error e => rw [hs] at h; cases h
      | ok sorted =>
        rw [hs] at h
        dsimp only at h
        have hout : sorted = out := by
          cases h
          rfl
        subst hout
        have h1 : r ∈ ded := sortRows_mem hs r hr
        have h2 : r ∈ (processAll intake studies).1 := dedupRows_mem hd r h1
        obtain ⟨s, hsm, hsr⟩ := processAll_mem intake studies r h2
        exact ⟨s, hsm, tryRow_some intake s r hsr⟩

/-- A UK site record. -/
def ukLoc : JVal := .dict
  [("locationFacility", .str "F"), ("locationCity", .str "Leeds"),
   ("locationCountry", .str "United Kingdom")]

/-- A study with one UK site. -/
def studyW : JVal := .dict [("protocolSection", .dict
  [("identificationModule", .dict [("nctId", .str "NCT1"), ("briefTitle", .str "T")]),
   ("contactsLocationsModule", .dict [("locations", .list [ukLoc])])])]

/-- A network returning exactly `studyW` on the first page of every term. -/
def netW : Net := fun rq =>
  match rq.pageToken with
  | none => .okJson (.dict [("studies", .list [studyW])])
  | some _ => .okJson (.dict [])

/-- The row `fetch_uk_trials` builds from `studyW`. -/
def rowW : JVal := .dict
  [("title", .str "T"), ("nct", .str "NCT1"), ("status", .str ""), ("phases", .str ""),
   ("conditions", .str ""), ("sponsor", .str ""), ("city_country", .str "Leeds, United Kingdom"),
   ("site", .str "F, Leeds, United Kingdom"), ("score", .int 0), ("reasons", .str ""),
   ("url", .str "https://clinicaltrials.gov/study/NCT1")]

/-- Witness for C10 on a concrete end-to-end run. -/
theorem fetch_uk_trials_uk_only_witness :
    ∃ s ∈ [studyW], ∃ L ls site, ukLocsOf s = .ok (L :: ls)
      ∧ mkSite L = .ok site
      ∧ rowField (.ok rowW) "site" = some (.str site) :=
  fetch_uk_trials_uk_only netW "Meningioma" "" (.dict []) true [studyW] [rowW] 1 0
    rfl rfl rowW (List.mem_singleton.mpr rfl)

/-! ## The merge-phase dedup invariant (ctgov_client.py lines 61-73) -/

/-- The non-empty string identifier of a record, when it has one: the value
    `fetch_all_terms` uses as its dedup key for ordinary records. -/
def kOf (s : JVal) : Option String :=
  match nctOf s with
  | .ok (.str n) => if n = "" then none else some n
  | _ => none

/-- The string keys stored in the dedup dict. -/
def stringKeys (acc : List (Key × JVal)) : List String :=
  acc.filterMap fun p =>
    match p.1 with
    | .kVal (.str n) => some n
    | _ => none

/-- Every key of the dict is a string key. -/
def accStrKeys (acc : List (Key × JVal)) : Prop :=
  ∀ p ∈ acc, ∃ n, p.1 = Key.kVal (.str n)

/-- First-seen-wins filtering of a record stream, keyed by `kOf`, carrying the
    set of identifiers already kept. -/
def foPairs (seen : List String) : List JVal → List (Key × JVal)
  | [] => []
  | s :: ss =>
    match kOf s with
    | some n =>
      if seen.contains n then foPairs seen ss
      else (Key.kVal (.str n), s) :: foPairs (n :: seen) ss
    | none => foPairs seen ss

theorem recKey_good {s : JVal} {n : String} (h : kOf s = some n) (fresh : Nat) :
    recKey s fresh = .ok (.kVal (.str n)) ∧ n ≠ "" := by
  unfold kOf at h
  cases hn : nctOf s with
  | error e => rw [hn] at h; cases h
  | ok v =>
    rw [hn] at h
    cases v with
    | str m =>
      dsimp only at h
      by_cases hm : m = ""
      · rw [if_pos hm] at h; cases h
      · rw [if_neg hm] at h
        cases h
        constructor
        · rw [recKey, hn]
          have ht : truthy (.str n) = true := by simp [truthy, hm]
          simp [ht]
        · exact hm
    | null => cases h
    | bool b => cases h
    | int m => cases h
    | list xs => cases h
    | dict xs => cases h

theorem keyMem_str {acc : List (Key × JVal)} (hacc : accStrKeys acc) (n : String) :
    keyMem (.kVal (.str n)) acc = (stringKeys acc).contains n := by
  induction acc with
  | nil => rfl
  | cons p rest ih =>
    obtain ⟨m, hm⟩ := hacc p (List.mem_cons_self _ _)
    have ihr := ih (fun q hq => hacc q (List.mem_cons_of_mem _ hq))
    obtain ⟨k0, v0⟩ := p
    simp only at hm
    subst hm
    rw [keyMem, List.any_cons]
    have h1 : keyEq (Key.kVal (.str m)) (Key.kVal (.str n)) = (m == n) := by
      by_cases hmn : m = n
      · subst hmn; simp [keyEq, pyEq, jNum, beqJ]
      · simp [keyEq, pyEq, jNum, beqJ, hmn]
    have h2 : stringKeys ((Key.kVal (.str m), v0) :: rest) = m :: stringKeys rest := by
      simp [stringKeys]
    rw [h1, h2, List.contains_cons]
    rw [keyMem] at ihr
    rw [ihr]
    have : (m == n) = (n == m) := by
      by_cases h : m = n
      · subst h; rfl
      · have h3 : (m == n) = false := by simp [h]
        have h4 : (n == m) = false := by simp [Ne.symm h]
        rw [h3, h4]
    rw [this]

theorem stringKeys_append (a b : List (Key × JVal)) :
    stringKeys (a ++ b) = stringKeys a ++ stringKeys b :=
  List.filterMap_append _ _ _

theorem contains_cons_eq (n x : String) (seen : List String) :
    (n :: seen).contains x = ((x == n) || seen.contains x) := rfl

theorem foPairs_congr {seen1 seen2 : List String}
    (h : ∀ x, seen1.contains x = seen2.contains x) :
    ∀ G, foPairs seen1 G = foPairs seen2 G := by
  intro G
  induction G generalizing seen1 seen2 with
  | nil => rfl
  | cons g gs ih =>
    rw [foPairs, foPairs]
    cases hk : kOf g with
    | none => exact ih h
    | some n =>
      dsimp only
      rw [h n]
      by_cases hc : seen2.contains n = true
      · simp only [hc, if_true]
        exact ih h
      · simp only [Bool.not_eq_true] at hc
        simp only [hc, Bool.false_eq_true, if_false]
        rw [@ih (n :: seen1) (n :: seen2)
          (fun x => by rw [contains_cons_eq n x seen1, contains_cons_eq n x seen2, h x])]

theorem contains_append_eq (x : String) : ∀ (a b : List String),
    (a ++ b).contains x = (a.contains x || b.contains x) := by
  intro a
  induction a with
  | nil => intro b; rfl
  | cons y ys ih =>
    intro b
    rw [List.cons_append, contains_cons_eq, contains_cons_eq, ih, Bool.or_assoc]

theorem contains_app_single (x n : String) (seen : List String) :
    (seen ++ [n]).contains x = (n :: seen).contains x := by
  rw [contains_append_eq, contains_cons_eq, contains_cons_eq]
  cases hx : (x == n) <;> cases hs : seen.contains x <;> rfl

theorem fo_elem_spec {seen : List String} : ∀ {G : List JVal} {p : Key × JVal},
    p ∈ foPairs seen G →
    ∃ n, p.1 = Key.kVal (.str n) ∧ kOf p.2 = some n ∧ seen.contains n = false := by
  intro G
  induction G generalizing seen with
  | nil => intro p hp; cases hp
  | cons g gs ih =>
    intro p hp
    rw [foPairs] at hp
    cases hk : kOf g with
    | none => rw [hk] at hp; exact ih hp
    | some n =>
      rw [hk] at hp
      dsimp only at hp
      by_cases hc : seen.contains n = true
      · rw [if_pos hc] at hp
        exact ih hp
      · rw [if_neg hc] at hp
        rcases List.mem_cons.mp hp with rfl | hp2
        · exact ⟨n, rfl, hk, Bool.not_eq_true _ |>.mp hc⟩
        · obtain ⟨m, h1, h2, h3⟩ := ih hp2
          rw [contains_cons_eq] at h3
          rw [Bool.or_eq_false_iff] at h3
          exact ⟨m, h1, h2, h3.2⟩

theorem accStrKeys_append {a b : List (Key × JVal)} (ha : accStrKeys a) (hb : accStrKeys b) :
    accStrKeys (a ++ b) := by
  intro p hp
  rcases List.mem_append.mp hp with h | h
  · exact ha p h
  · exact hb p h

theorem accStrKeys_foPairs (seen : List String) (G : List JVal) :
    accStrKeys (foPairs seen G) :=
  fun p hp => (fo_elem_spec hp).elim (fun n hn => ⟨n, hn.1⟩)

theorem stringKeys_cons_kVal (n : String) (s : JVal) (rest : List (Key × JVal)) :
    stringKeys ((Key.kVal (.str n), s) :: rest) = n :: stringKeys rest := by
  simp [stringKeys]

theorem insertStudies_spec : ∀ (S : List JVal) (fresh : Nat) (acc : List (Key × JVal)),
    (∀ s ∈ S, (kOf s).isSome = true) → accStrKeys acc →
    ∃ fresh2, insertStudies S fresh acc = .ok (fresh2, acc ++ foPairs (stringKeys acc) S) := by
  intro S
  induction S with
  | nil =>
    intro fresh acc _ _
    exact ⟨fresh, by rw [insertStudies, foPairs]; simp⟩
  | cons s ss ih =>
    intro fresh acc hgood hacc
    obtain ⟨n, hn⟩ := Option.isSome_iff_exists.mp (hgood s (List.mem_cons_self _ _))
    obtain ⟨hrk, _⟩ := recKey_good hn fresh
    have hkm := keyMem_str hacc n
    rw [insertStudies, hrk]
    dsimp only
    rw [hkm]
    have hgood2 : ∀ u ∈ ss, (kOf u).isSome = true :=
      fun u hu => hgood u (List.mem_cons_of_mem _ hu)
    by_cases hc : (stringKeys acc).contains n = true
    · rw [if_pos hc]
      obtain ⟨f2, hf2⟩ := ih (fresh + 1) acc hgood2 hacc
      refine ⟨f2, ?_⟩
      rw [hf2, foPairs, hn]
      dsimp only
      rw [if_pos hc]
    · rw [if_neg hc]
      have hacc2 : accStrKeys (acc ++ [(Key.kVal (.str n), s)]) :=
        accStrKeys_append hacc (fun p hp => by
          rcases List.mem_singleton.mp hp with rfl
          exact ⟨n, rfl⟩)
      obtain ⟨f2, hf2⟩ := ih (fresh + 1) (acc ++ [(Key.kVal (.str n), s)]) hgood2 hacc2
      refine ⟨f2, ?_⟩
      rw [hf2, foPairs, hn]
      dsimp only
      rw [if_neg hc, List.append_assoc]
      have hsk : stringKeys (acc ++ [(Key.kVal (.str n), s)])
          = stringKeys acc ++ [n] := by
        rw [stringKeys_append]
        rfl
      rw [hsk]
      rw [foPairs_congr (fun x => contains_app_single x n (stringKeys acc)) ss]
      rfl

theorem foPairs_append : ∀ (A : List JVal) (seen : List String) (B : List JVal),
    foPairs seen (A ++ B)
      = foPairs seen A ++ foPairs (seen ++ stringKeys (foPairs seen A)) B := by
  intro A
  induction A with
  | nil =>
    intro seen B
    rw [List.nil_append, foPairs]
    simp [stringKeys]
  | cons s A2 ih =>
    intro seen B
    rw [List.cons_append, foPairs, foPairs]
    cases hk : kOf s with
    | none => exact ih seen B
    | some n =>
      dsimp only
      by_cases hc : seen.contains n = true
      · rw [if_pos hc, if_pos hc]
        exact ih seen B
      · rw [if_neg hc, if_neg hc]
        rw [List.cons_append, ih (n :: seen) B, stringKeys_cons_kVal]
        have hcg : ∀ x : String,
            ((n :: seen) ++ stringKeys (foPairs (n :: seen) A2)).contains x
              = (seen ++ n :: stringKeys (foPairs (n :: seen) A2)).contains x := by
          intro x
          rw [List.cons_append, contains_cons_eq, contains_append_eq, contains_append_eq,
            contains_cons_eq]
          cases h1 : (x == n) <;> cases h2 : seen.contains x <;>
            cases h3 : (stringKeys (foPairs (n :: seen) A2)).contains x <;> rfl
        rw [foPairs_congr hcg B]

theorem fetchLoop_spec (net : Net) (statuses : List String) (ps mp : Nat) :
    ∀ (ts : List String) (fresh : Nat) (acc : List (Key × JVal)) (res : List (Key × JVal)),
    (∀ s ∈ gatherAll net statuses ps mp ts, (kOf s).isSome = true) → accStrKeys acc →
    fetchLoop net statuses ps mp ts fresh acc = .ok res →
    res = acc ++ foPairs (stringKeys acc) (gatherAll net statuses ps mp ts) := by
  intro ts
  induction ts with
  | nil =>
    intro fresh acc res _ _ h
    cases h
    rw [gatherAll, foPairs]
    simp
  | cons t ts ih =>
    intro fresh acc res hg hacc h
    rw [fetchLoop] at h
    rw [gatherAll] at hg ⊢
    cases hc : ctgov_search_one net t statuses ps mp with
    | error e =>
      cases e with
      | httpError =>
        rw [hc] at h hg
        dsimp only at h hg ⊢
        rw [List.nil_append] at hg ⊢
        exact ih fresh acc res hg hacc h
      | attributeError => rw [hc] at h; dsimp only at h; cases h
      | typeError => rw [hc] at h; dsimp only at h; cases h
      | keyError => rw [hc] at h; dsimp only at h; cases h
      | timeout => rw [hc] at h; dsimp only at h; cases h
      | jsonDecodeError => rw [hc] at h; dsimp only at h; cases h
    | ok S =>
      rw [hc] at h hg
      dsimp only at h hg ⊢
      have hgS : ∀ s ∈ S, (kOf s).isSome = true :=
        fun s hs => hg s (List.mem_append.mpr (Or.inl hs))
      have hgTs : ∀ s ∈ gatherAll net statuses ps mp ts, (kOf s).isSome = true :=
        fun s hs => hg s (List.mem_append.mpr (Or.inr hs))
      obtain ⟨f2, hf2⟩ := insertStudies_spec S fresh acc hgS hacc
      rw [hf2] at h
      dsimp only at h
      have hacc2 : accStrKeys (acc ++ foPairs (stringKeys acc) S) :=
        accStrKeys_append hacc (accStrKeys_foPairs _ _)
      have hres := ih f2 _ res hgTs hacc2 h
      rw [hres, stringKeys_append, foPairs_append S (stringKeys acc)
        (gatherAll net statuses ps mp ts), List.append_assoc]

theorem foPairs_pairwise : ∀ (G : List JVal) (seen : List String),
    List.Pairwise (fun a b => kOf a ≠ kOf b) ((foPairs seen G).map Prod.snd) := by
  intro G
  induction G with
  | nil => intro seen; exact List.Pairwise.nil
  | cons g gs ih =>
    intro seen
    rw [foPairs]
    cases hk : kOf g with
    | none => exact ih seen
    | some n =>
      dsimp only
      by_cases hc : seen.contains n = true
      · rw [if_pos hc]
        exact ih seen
      · rw [if_neg hc]
        rw [List.map_cons]
        refine List.Pairwise.cons ?_ (ih (n :: seen))
        intro b hb
        obtain ⟨p, hp, rfl⟩ := List.mem_map.mp hb
        obtain ⟨m, _, hm2, hm3⟩ := fo_elem_spec hp
        rw [contains_cons_eq, Bool.or_eq_false_iff] at hm3
        have hmn : m ≠ n := by
          intro hEq
          subst hEq
          simp at hm3
        rw [hk, hm2]
        intro hEq
        exact hmn (Option.some.inj hEq).symm

theorem foPairs_find : ∀ (G : List JVal) (seen : List String),
    ∀ r ∈ (foPairs seen G).map Prod.snd,
    G.find? (fun x => kOf x == kOf r) = some r := by
  intro G
  induction G with
  | nil => intro seen r hr; cases hr
  | cons g gs ih =>
    intro seen r hr
    rw [foPairs] at hr
    cases hk : kOf g with
    | none =>
      rw [hk] at hr
      obtain ⟨p, hp, rfl⟩ := List.mem_map.mp hr
      obtain ⟨m, _, hm2, _⟩ := fo_elem_spec hp
      have htest : (kOf g == kOf p.2) = false := by
        rw [hk, hm2]
        rfl
      rw [List.find?_cons, htest]
      exact ih seen p.2 (List.mem_map_of_mem _ hp)
    | some n =>
      rw [hk] at hr
      dsimp only at hr
      by_cases hc : seen.contains n = true
      · rw [if_pos hc] at hr
        obtain ⟨p, hp, rfl⟩ := List.mem_map.mp hr
        obtain ⟨m, _, hm2, hm3⟩ := fo_elem_spec hp
        have hmn : n ≠ m := by
          intro hEq
          subst hEq
          rw [hc] at hm3
          cases hm3
        have htest : (kOf g == kOf p.2) = false := by
          rw [hk, hm2]
          simp [hmn]
        rw [List.find?_cons, htest]
        exact ih seen p.2 (List.mem_map_of_mem _ hp)
      · rw [if_neg hc] at hr
        rw [List.map_cons] at hr
        dsimp only at hr
        rcases List.mem_cons.mp hr with rfl | hr2
        · have htest : (kOf r == kOf r) = true := by simp
          rw [List.find?_cons, htest]
        · obtain ⟨p, hp, rfl⟩ := List.mem_map.mp hr2
          obtain ⟨m, _, hm2, hm3⟩ := fo_elem_spec hp
          rw [contains_cons_eq, Bool.or_eq_false_iff] at hm3
          have hmn : n ≠ m := by
            intro hEq
            subst hEq
            simp at hm3
          have htest : (kOf g == kOf p.2) = false := by
            rw [hk, hm2]
            simp [hmn]
          rw [List.find?_cons, htest]
          exact ih (n :: seen) p.2 (List.mem_map_of_mem _ hp)

/-- C7: under successful fetching, when every gathered record carries a
    non-empty string `nctId`, the merged output of `fetch_all_terms` contains
    at most one record per identifier (pairwise distinct keys), and the record
    kept for an identifier is the first one encountered when iterating
    per-term results in term order then page order. -/
theorem fetch_all_terms_dedup_first_seen (net : Net) (terms statuses : List String)
    (ps mp : Nat) (out : List JVal)
    (h : fetch_all_terms net terms statuses ps mp = .ok out)
    (hg : ∀ s ∈ gatherAll net statuses ps mp terms, (kOf s).isSome = true) :
    List.Pairwise (fun a b => kOf a ≠ kOf b) out
    ∧ ∀ r ∈ out,
        (gatherAll net statuses ps mp terms).find? (fun x => kOf x == kOf r) = some r := by
  unfold fetch_all_terms at h
  cases hf : fetchLoop net statuses ps mp terms 0 [] with
  | error e => rw [hf] at h; cases h
  | ok acc =>
    rw [hf] at h
    cases h
    have hspec := fetchLoop_spec net statuses ps mp terms 0 [] acc hg
      (fun p hp => absurd hp (List.not_mem_nil p)) hf
    have hacc : acc = foPairs [] (gatherAll net statuses ps mp terms) := by
      simpa [stringKeys] using hspec
    constructor
    · rw [hacc]
      exact foPairs_pairwise _ []
    · rw [hacc]
      exact fun r hr => foPairs_find _ [] r hr

/-- Two records sharing the identifier NCT1 (distinguished by a tag) and one
    with NCT2, for the dedup witness. -/
def studyB1 : JVal := .dict
  [("protocolSection", .dict [("identificationModule", .dict [("nctId", .str "NCT1")])]),
   ("tag", .int 1)]

def studyB2 : JVal := .dict
  [("protocolSection", .dict [("identificationModule", .dict [("nctId", .str "NCT1")])]),
   ("tag", .int 2)]

def studyC2 : JVal := .dict
  [("protocolSection", .dict [("identificationModule", .dict [("nctId", .str "NCT2")])])]

/-- A network where term "a" yields `studyB1` and every other term yields
    `studyB2` then `studyC2`, in one page each. -/
def netD : Net := fun rq =>
  if rq.term = "a" then .okJson (.dict [("studies", .list [studyB1])])
  else .okJson (.dict [("studies", .list [studyB2, studyC2])])

/-- Witness for C7: across terms, NCT1 keeps its first occurrence `studyB1`
    and NCT2 keeps `studyC2`. -/
theorem fetch_all_terms_dedup_first_seen_witness :
    List.Pairwise (fun a b => kOf a ≠ kOf b) [studyB1, studyC2]
    ∧ ∀ r ∈ [studyB1, studyC2],
        (gatherAll netD STATUSES 100 5 ["a", "b"]).find? (fun x => kOf x == kOf r) = some r :=
  fetch_all_terms_dedup_first_seen netD ["a", "b"] STATUSES 100 5 [studyB1, studyC2]
    rfl (by decide)
